import Mathlib

/-!
# Verification of the prise OpenTUI client core

Shallow embedding of the client-side engine of the prise terminal
multiplexer (TypeScript sources under `clients/opentui/src` plus the
connection manager and keybinding interpreter), together with theorems
settling the specification's claims about it.

The embedding follows the source function by function:

* `Prise.Layout`: the persistent split-tree layout model (`layout.ts`).
* `Prise.Render`: the per-pane terminal-state replica (`renderer`
  portion of `layout.ts`): grid writes, palette resolution.
* `Prise.Keys`: the prefix-command state machine (keybinding module).
* `Prise.Conn`: the bounded reconnect policy (`connection.ts`).
* `Prise.Rpc`: request/response correlation and the incremental
  message decoder (`rpc.ts`).

JavaScript mutable state is threaded explicitly (the module-level pane
and tab id counters become a `Counters` value; class fields become
record fields).  Machine numbers stay well inside 2^53, so `Nat`/`Int`
model them exactly.  Object reference identity — which `splitPane` and
`setPtyId` use to detect a changed child — is modelled by the
`refChanged` predicate, which characterises exactly the cases in which
the source returns a fresh object rather than the argument itself.
-/

set_option maxRecDepth 8192

namespace Prise
namespace Layout

/-- Direction for splits (`SplitDirection` in `layout.ts`). -/
inductive SplitDirection
  | horizontal
  | vertical
  deriving DecidableEq, Repr

/-- Direction for focus movement (`FocusDirection` in `layout.ts`). -/
inductive FocusDirection
  | up
  | down
  | left
  | right
  deriving DecidableEq, Repr

/-- Layout node: either a pane leaf (`PaneNode`: id plus optional pty id)
or a split (`SplitNode`: direction, divider ratio, two children). -/
inductive LayoutNode
  | pane (id : Nat) (ptyId : Option Nat)
  | split (direction : SplitDirection) (ratio : ℚ) (first second : LayoutNode)
  deriving DecidableEq, Repr

/-- A tab: independent layout tree plus its focus cursor (`Tab`). -/
structure Tab where
  id : Nat
  root : LayoutNode
  focusedPaneId : Nat
  deriving DecidableEq, Repr

/-- Global layout state: ordered tabs plus the active tab id (`LayoutState`). -/
structure LayoutState where
  tabs : List Tab
  activeTabId : Nat
  deriving DecidableEq, Repr

/-- The module-level mutable id counters `_paneCounter` / `_tabCounter`,
threaded explicitly. -/
structure Counters where
  pane : Nat
  tab : Nat
  deriving DecidableEq, Repr

/-- `createPaneId`: increments the pane counter and returns it. -/
def createPaneId (c : Counters) : Nat × Counters :=
  (c.pane + 1, { c with pane := c.pane + 1 })

/-- `createTabId`: increments the tab counter and returns it. -/
def createTabId (c : Counters) : Nat × Counters :=
  (c.tab + 1, { c with tab := c.tab + 1 })

/-- `findPaneInTree`: locate the pane leaf with the given id (first match
in pre-order), or `none`. -/
def findPaneInTree : LayoutNode → Nat → Option (Nat × Option Nat)
  | .pane id pty, target => if id = target then some (id, pty) else none
  | .split _ _ f s, target =>
    match findPaneInTree f target with
    | some p => some p
    | none => findPaneInTree s target

/-- `getAllPaneIds`: all pane ids in pre-order (depth-first). -/
def getAllPaneIds : LayoutNode → List Nat
  | .pane id _ => [id]
  | .split _ _ f s => getAllPaneIds f ++ getAllPaneIds s

/-- `hasPane`: whether a pane with the given id exists in the tree. -/
def hasPane (node : LayoutNode) (id : Nat) : Bool :=
  (findPaneInTree node id).isSome

/-- The reference-inequality test `splitPane(node.first) !== node.first`
(and likewise for `setPtyId`), expressed on values.  Both source functions
return the very same object only in the pane-leaf branch with a
non-matching id; a matching pane leaf returns a fresh object, and the
split branch always returns a fresh `{ ...node, ... }` literal.  So the
recursive call's result is reference-unequal to the child exactly when the
child is a split, or a pane carrying the target id. -/
def refChanged : LayoutNode → Nat → Bool
  | .pane id _, paneId => decide (id = paneId)
  | .split _ _ _ _, _ => true

/-- `splitPane`: replace the target leaf with a
`Split{direction, ratio := 0.5, first := old leaf, second := fresh pane}`.
The source detects "the recursive call changed the first subtree" by
reference inequality (`first !== node.first`) and early-returns with the
first-subtree result whenever it holds — which is whenever the first child
is a split, regardless of where the target pane is (`refChanged`).  The
second subtree is therefore only visited beneath a pane first child.  The
pane-id counter is only consumed when a leaf with the target id is
actually reached and split. -/
def splitPane : LayoutNode → Nat → SplitDirection → Counters → LayoutNode × Counters
  | .pane id pty, paneId, direction, c =>
    if id = paneId then
      let (newId, c') := createPaneId c
      (.split direction (1 / 2 : ℚ) (.pane id pty) (.pane newId none), c')
    else (.pane id pty, c)
  | .split d r f s, paneId, direction, c =>
    let (f', c') := splitPane f paneId direction c
    if refChanged f paneId then (.split d r f' s, c')
    else
      let (s', c'') := splitPane s paneId direction c'
      (.split d r f s', c'')

/-- Whether `splitPane`'s reference-guided scan actually reaches a pane
with the target id and splits it: at a split node the scan commits to the
first subtree whenever `refChanged` holds there, else moves to the second.
(When this is `false`, `splitPane` rebuilds the tree value-unchanged and
consumes no pane id.) -/
def splitTarget : LayoutNode → Nat → Bool
  | .pane id _, paneId => decide (id = paneId)
  | .split _ _ f s, paneId =>
    if refChanged f paneId then splitTarget f paneId else splitTarget s paneId

/-- `closePane`: remove the leaf with the given id; a parent split whose
child vanished collapses to the surviving sibling; `none` means the tree
became empty (the caller must close the tab). -/
def closePane : LayoutNode → Nat → Option LayoutNode
  | .pane id pty, paneId => if id = paneId then none else some (.pane id pty)
  | .split d r f s, paneId =>
    match closePane f paneId, closePane s paneId with
    | none, second => second
    | some f', none => some f'
    | some f', some s' => some (.split d r f' s')

/-- `setPtyId`: assign a pty id to the pane with the given id.  The source
has the same reference-inequality early return as `splitPane`: the second
subtree is only visited when the first child is a pane not carrying the
target id. -/
def setPtyId : LayoutNode → Nat → Nat → LayoutNode
  | .pane id pty, paneId, ptyId =>
    if id = paneId then .pane id (some ptyId) else .pane id pty
  | .split d r f s, paneId, ptyId =>
    if refChanged f paneId then .split d r (setPtyId f paneId ptyId) s
    else .split d r f (setPtyId s paneId ptyId)

/-- `createTab`: a fresh single-pane tab, focused on its pane. -/
def createTab (c : Counters) : Tab × Counters :=
  let (paneId, c') := createPaneId c
  let (tabId, c'') := createTabId c'
  ({ id := tabId, root := .pane paneId none, focusedPaneId := paneId }, c'')

/-- `initLayout`: a single fresh tab, active. -/
def initLayout (c : Counters) : LayoutState × Counters :=
  let (tab, c') := createTab c
  ({ tabs := [tab], activeTabId := tab.id }, c')

/-- `addTab`: append a fresh tab and activate it. -/
def addTab (state : LayoutState) (c : Counters) : LayoutState × Counters :=
  let (tab, c') := createTab c
  ({ state with tabs := state.tabs ++ [tab], activeTabId := tab.id }, c')

/-- `closeTab`: refuse to close the last tab; otherwise remove the tab and,
when it was active, activate the previous tab in the list (or the next one
when the closed tab was first). -/
def closeTab (state : LayoutState) (tabId : Nat) : LayoutState :=
  if state.tabs.length ≤ 1 then state
  else
    match state.tabs.findIdx? (fun t => t.id = tabId) with
    | none => state
    | some index =>
      let newTabs := state.tabs.filter (fun t => t.id ≠ tabId)
      let newActiveId :=
        if state.activeTabId = tabId then
          if index > 0 then
            ((state.tabs.get? (index - 1)).map Tab.id).getD state.activeTabId
          else
            ((state.tabs.get? (index + 1)).map Tab.id).getD state.activeTabId
        else state.activeTabId
      { state with tabs := newTabs, activeTabId := newActiveId }

/-- `setActiveTab`: activate the tab when it exists, else no-op. -/
def setActiveTab (state : LayoutState) (tabId : Nat) : LayoutState :=
  if (state.tabs.find? (fun t => t.id = tabId)).isSome then
    { state with activeTabId := tabId }
  else state

/-- `getActiveTab`: the tab whose id is `activeTabId`, if any. -/
def getActiveTab (state : LayoutState) : Option Tab :=
  state.tabs.find? (fun t => t.id = state.activeTabId)

/-- `updateTab`: replace every tab carrying the given id. -/
def updateTab (state : LayoutState) (tabId : Nat) (updatedTab : Tab) : LayoutState :=
  { state with tabs := state.tabs.map (fun t => if t.id = tabId then updatedTab else t) }

/-- `splitFocused`: split the focused pane of the active tab, then focus
`getAllPaneIds(newRoot)[length - 1]` — the last pane in pre-order (the
source comments this as "always the second child of the new split"). -/
def splitFocused (state : LayoutState) (direction : SplitDirection) (c : Counters) :
    LayoutState × Counters :=
  match getActiveTab state with
  | none => (state, c)
  | some tab =>
    let (newRoot, c') := splitPane tab.root tab.focusedPaneId direction c
    let newPaneId := (getAllPaneIds newRoot).getLastD 0
    (updateTab state tab.id { tab with root := newRoot, focusedPaneId := newPaneId }, c')

/-- `closeFocused`: close the focused pane of the active tab; when the tree
becomes empty, close the tab; otherwise focus the first remaining pane. -/
def closeFocused (state : LayoutState) : LayoutState :=
  match getActiveTab state with
  | none => state
  | some tab =>
    match closePane tab.root tab.focusedPaneId with
    | none => closeTab state tab.id
    | some newRoot =>
      let paneIds := getAllPaneIds newRoot
      let focusedId := if paneIds.length > 0 then paneIds.headD tab.focusedPaneId
        else tab.focusedPaneId
      updateTab state tab.id { tab with root := newRoot, focusedPaneId := focusedId }

/-- `moveFocusToPane`: focus the pane when it exists in the active tab. -/
def moveFocusToPane (state : LayoutState) (paneId : Nat) : LayoutState :=
  match getActiveTab state with
  | none => state
  | some tab =>
    if hasPane tab.root paneId then
      updateTab state tab.id { tab with focusedPaneId := paneId }
    else state

/-- `focusNext`: cycle focus through the pre-order pane list of the active
tab (left/up backward with wraparound, right/down forward). -/
def focusNext (state : LayoutState) (direction : FocusDirection) : LayoutState :=
  match getActiveTab state with
  | none => state
  | some tab =>
    let paneIds := getAllPaneIds tab.root
    match paneIds.indexOf? tab.focusedPaneId with
    | none => state
    | some currentIndex =>
      if paneIds.length ≤ 1 then state
      else
        let nextIndex :=
          match direction with
          | .left | .up => if currentIndex > 0 then currentIndex - 1 else paneIds.length - 1
          | .right | .down => (currentIndex + 1) % paneIds.length
        moveFocusToPane state (paneIds.getD nextIndex 0)

/-- `cycleTab` (from the application layer): move the active tab forward or
backward in list order with wraparound. -/
def cycleTab (state : LayoutState) (delta : Int) : LayoutState :=
  if state.tabs.length ≤ 1 then state
  else
    match state.tabs.findIdx? (fun t => t.id = state.activeTabId) with
    | none => state
    | some idx =>
      let nextIdx := (((idx : Int) + delta + state.tabs.length).emod state.tabs.length).toNat
      let nextId := ((state.tabs.get? nextIdx).map Tab.id).getD state.activeTabId
      setActiveTab state nextId

/-- `validateLayoutState`: the global invariant checker; returns the list
of violated-invariant messages (empty means consistent). -/
def validateLayoutState (state : LayoutState) : List String :=
  let e1 := if state.tabs.length = 0 then ["Layout must have at least one tab"] else []
  let e2 := if (state.tabs.find? (fun t => t.id = state.activeTabId)).isSome then []
    else ["Active tab ID does not exist"]
  let e3 := state.tabs.flatMap (fun tab =>
    let f := if hasPane tab.root tab.focusedPaneId then []
      else ["Tab " ++ toString tab.id ++ ": focused pane " ++
            toString tab.focusedPaneId ++ " does not exist"]
    let p := if (getAllPaneIds tab.root).length = 0 then
        ["Tab " ++ toString tab.id ++ ": has no panes"]
      else []
    f ++ p)
  e1 ++ e2 ++ e3

end Layout

namespace Render

/-- An RGB triple as produced by color resolution. -/
structure Rgb where
  r : Nat
  g : Nat
  b : Nat
  deriving DecidableEq, Repr

/-- The fixed 16-entry basic ANSI palette from `xtermIndexToRgb`. -/
def basicAnsi : List (Nat × Nat × Nat) :=
  [(0, 0, 0), (205, 49, 49), (13, 188, 121), (229, 229, 16),
   (36, 114, 200), (188, 63, 188), (17, 168, 205), (229, 229, 229),
   (102, 102, 102), (241, 76, 76), (35, 209, 139), (245, 245, 67),
   (59, 142, 234), (214, 112, 214), (41, 184, 219), (255, 255, 255)]

/-- The 6-step channel values of the 6x6x6 color cube. -/
def cubeSteps : List Nat := [0, 95, 135, 175, 215, 255]

/-- `xtermIndexToRgb`: resolve an 8-bit palette index to RGB — basic ANSI
table for 0–15, the 6x6x6 cube for 16–231, the grayscale ramp for 232–255,
and the default foreground for anything else. -/
def xtermIndexToRgb (idx : Int) : Rgb :=
  if 0 ≤ idx ∧ idx ≤ 15 then
    let t := basicAnsi.getD idx.toNat (0, 0, 0)
    ⟨t.1, t.2.1, t.2.2⟩
  else if 16 ≤ idx ∧ idx ≤ 231 then
    let n := (idx - 16).toNat
    let r := n / 36
    let g := (n % 36) / 6
    let b := n % 6
    ⟨cubeSteps.getD r 0, cubeSteps.getD g 0, cubeSteps.getD b 0⟩
  else if 232 ≤ idx ∧ idx ≤ 255 then
    let shade := 8 + (idx - 232).toNat * 10
    ⟨shade, shade, shade⟩
  else ⟨220, 220, 220⟩

/-- A style attribute set (`StyleAttributes` in the renderer). -/
structure StyleAttributes where
  fg : Option Nat
  bg : Option Nat
  fg_idx : Option Nat
  bg_idx : Option Nat
  bold : Option Bool
  dim : Option Bool
  italic : Option Bool
  underline : Option Bool
  reverse : Option Bool
  blink : Option Bool
  strikethrough : Option Bool
  ul_style : Option Nat
  ul_color : Option Nat
  deriving DecidableEq, Repr

/-- Cursor shape (`CursorState.shape`). -/
inductive CursorShape
  | block
  | beam
  | underline
  deriving DecidableEq, Repr

/-- Cursor state (`CursorState`). -/
structure CursorState where
  row : Int
  col : Int
  visible : Bool
  shape : CursorShape
  deriving DecidableEq, Repr

/-- Selection state (`SelectionState`). -/
structure SelectionState where
  start_row : Option Int
  start_col : Option Int
  end_row : Option Int
  end_col : Option Int
  deriving DecidableEq, Repr

/-- A stored grid cell (`{ grapheme, style_id? }`). -/
structure GCell where
  grapheme : String
  style_id : Option Nat
  deriving DecidableEq, Repr

/-- An incoming `write` cell (`Cell`): grapheme plus optional style id,
repeat count and width. -/
structure Cell where
  grapheme : String
  style_id : Option Nat
  rep : Option Nat
  width : Option Nat
  deriving DecidableEq, Repr

/-- Grid representation: row-major list of rows. -/
abbrev Grid := List (List GCell)

/-- The dirty set, in JavaScript `Set` insertion order. -/
abbrev DirtyList := List (Int × Int)

/-- The full renderer state (`class Renderer` fields). -/
structure RState where
  rows : Nat
  cols : Nat
  grid : Grid
  styles : List (Nat × StyleAttributes)
  cursorState : CursorState
  selectionState : SelectionState
  titleText : String
  dirtyCells : DirtyList
  deriving DecidableEq

/-- `this.grid[row][col] = v`: in-range assignment; out-of-range indices
(as JavaScript array property writes at negative or past-end keys) leave
every valid grid position unchanged, which this embedding renders as the
identity. -/
def setCell (g : Grid) (r c : Int) (v : GCell) : Grid :=
  if 0 ≤ r ∧ 0 ≤ c then
    match g.get? r.toNat with
    | some rowL => g.set r.toNat (rowL.set c.toNat v)
    | none => g
  else g

/-- `dirtyCells.add`: idempotent insertion in arrival order. -/
def addDirty (d : DirtyList) (p : Int × Int) : DirtyList :=
  if d.contains p then d else d ++ [p]

/-- The inner `for (rep = 0; rep < repeat; rep++)` loop of `write`: writes
one cell `rep` times, emitting a blank continuation cell after a width-2
grapheme when the next column still fits, and stopping at the row edge. -/
def writeRep (cols : Nat) (row : Int) (grapheme : String) (styleId : Option Nat)
    (width : Nat) : Nat → Int × Grid × DirtyList → Int × Grid × DirtyList
  | 0, s => s
  | rep + 1, (c, g, d) =>
    if (cols : Int) ≤ c then (c, g, d)
    else if width = 2 ∧ c + 1 < (cols : Int) then
      writeRep cols row grapheme styleId width rep
        (c + 2,
         setCell (setCell g row c ⟨grapheme, styleId⟩) row (c + 1) ⟨" ", styleId⟩,
         addDirty (addDirty d (row, c)) (row, c + 1))
    else
      writeRep cols row grapheme styleId width rep
        (c + 1, setCell g row c ⟨grapheme, styleId⟩, addDirty d (row, c))

/-- The outer `for (const cell of cells)` loop of `write`, threading the
most recent explicit style id (`currentStyleId`) and the cursor column. -/
def writeLoop (cols : Nat) (row : Int) :
    List Cell → Option Nat × Int × Grid × DirtyList → Option Nat × Int × Grid × DirtyList
  | [], s => s
  | cell :: rest, (cur, c, g, d) =>
    if (cols : Int) ≤ c then (cur, c, g, d)
    else
      let currentStyleId := match cell.style_id with
        | some sid => some sid
        | none => cur
      let styleId := match cell.style_id with
        | none => currentStyleId
        | some sid => some sid
      let rep := cell.rep.getD 1
      let width := cell.width.getD 1
      let (c', g', d') := writeRep cols row cell.grapheme styleId width rep (c, g, d)
      writeLoop cols row rest (currentStyleId, c', g', d')

/-- `Renderer.write(row, col, cells)`: apply cells left to right starting
at `(row, col)`; rows outside the grid are rejected up front. -/
def RState.write (st : RState) (row col : Int) (cells : List Cell) : RState :=
  if row < 0 ∨ (st.rows : Int) ≤ row then st
  else
    let out := writeLoop st.cols row cells (none, col, st.grid, st.dirtyCells)
    { st with grid := out.2.2.1, dirtyCells := out.2.2.2 }

/-- `initGrid`: a rows × cols grid of blank cells. -/
def initGrid (rows cols : Nat) : Grid :=
  List.replicate rows (List.replicate cols ⟨" ", none⟩)

/-- `markAllDirty`: every coordinate, row-major. -/
def markAllDirty (rows cols : Nat) : DirtyList :=
  (List.range rows).flatMap (fun r => (List.range cols).map (fun c => ((r : Int), (c : Int))))

/-- The `Renderer` constructor. -/
def Renderer.init (rows cols : Nat) : RState :=
  { rows := rows, cols := cols, grid := initGrid rows cols, styles := [],
    cursorState := { row := 0, col := 0, visible := false, shape := .block },
    selectionState := { start_row := none, start_col := none, end_row := none, end_col := none },
    titleText := "", dirtyCells := markAllDirty rows cols }

/-- Read one grid cell from a grid value (the observation
`this.grid[r][c]` at valid coordinates). -/
def cellAt (g : Grid) (r c : Int) : Option GCell :=
  if 0 ≤ r ∧ 0 ≤ c then
    match g.get? r.toNat with
    | some rowL => rowL.get? c.toNat
    | none => none
  else none

/-- Read one grid cell of the renderer state. -/
def getCell (st : RState) (r c : Int) : Option GCell :=
  cellAt st.grid r c

/-- The grid shape invariant the `Renderer` class maintains: `rows` rows
of `cols` cells each (`initGrid` establishes it, `resize` re-establishes
it). -/
def wfGrid (st : RState) : Prop :=
  st.grid.length = st.rows ∧ ∀ rowL ∈ st.grid, rowL.length = st.cols

end Render

namespace Keys

/-- A key event as delivered to the matcher (`KeyEvent`). -/
structure KeyEvent where
  key : String
  ctrl : Bool
  alt : Bool
  shift : Bool
  meta : Bool
  deriving DecidableEq, Repr

/-- The structured action vocabulary (`Action`). -/
inductive Action
  | sendToPty (data : String)
  | split (direction : Layout.SplitDirection)
  | newTab
  | nextTab
  | prevTab
  | focus (direction : Layout.FocusDirection)
  | closePane
  | detach
  | noop
  deriving DecidableEq, Repr

/-- JavaScript `toLowerCase()` as the source applies it to key names,
modelled per character (the keys involved are ASCII). -/
def lowerKey (s : String) : String :=
  ⟨s.data.map Char.toLower⟩

/-- `isPrefixKey`: Ctrl+b without alt/meta. -/
def isPrefixKey (event : KeyEvent) : Bool :=
  event.ctrl && !event.alt && !event.meta && lowerKey event.key = "b"

/-- `interpretCommand`: the fixed command table consulted after the prefix
chord (keys arrive already lower-cased). -/
def interpretCommand (key : String) : Action :=
  if key = "h" then .focus .left
  else if key = "j" then .focus .down
  else if key = "k" then .focus .up
  else if key = "l" then .focus .right
  else if key = "left" then .focus .left
  else if key = "down" then .focus .down
  else if key = "up" then .focus .up
  else if key = "right" then .focus .right
  else if key = "%" then .split .horizontal
  else if key = "\"" then .split .vertical
  else if key = "b" then .sendToPty "\x02"
  else if key = "c" then .newTab
  else if key = "n" then .nextTab
  else if key = "p" then .prevTab
  else if key = "x" then .closePane
  else if key = "d" then .detach
  else .noop

/-- `PrefixMatcher.processKey`: the two-state machine.  The state is the
`waitingForCommand` flag; the result is the emitted action (`none` means
the key was not consumed and passes through to terminal encoding) together
with the successor state. -/
def processKey (waiting : Bool) (event : KeyEvent) : Option Action × Bool :=
  let key := lowerKey event.key
  if waiting ∧ key = "escape" then (some .noop, false)
  else if waiting then (some (interpretCommand key), false)
  else if isPrefixKey event then (some .noop, true)
  else (none, waiting)

/-- The keys carrying a non-`noop` entry in `interpretCommand`. -/
def commandKeys : List String :=
  ["h", "j", "k", "l", "left", "down", "up", "right", "%", "\"",
   "b", "c", "n", "p", "x", "d"]

end Keys

namespace Conn

/-- `maxReconnectAttempts` in `connection.ts`. -/
def maxReconnectAttempts : Nat := 5

/-- `reconnectDelayMs` in `connection.ts`. -/
def reconnectDelayMs : Nat := 1000

/-- What one run of `attemptReconnect` does, observably: the reconnect
attempts it schedules (attempt number and delay in ms, each one
re-invoking `connect`), whether it hit the attempt cap and stopped, the
log lines it emits, and any error it surfaces to its caller (a value
thrown or a promise rejection — the recursive calls are not awaited, so
nothing else can escape). -/
structure ReconnectTrace where
  attempts : List (Nat × Nat)
  gaveUp : Bool
  logs : List String
  surfacedError : Option String
  deriving DecidableEq, Repr

/-- The exhaustion branch of `attemptReconnect`: log and return. -/
def giveUpTrace : ReconnectTrace :=
  { attempts := [], gaveUp := true,
    logs := ["Max reconnection attempts reached"], surfacedError := none }

/-- The log line announcing reconnect attempt `a` after `delay` ms. -/
def attemptLog (a delay : Nat) : String :=
  "Attempting reconnect (" ++ toString a ++ "/" ++
    toString maxReconnectAttempts ++ ") in " ++ toString delay ++ "ms"

/-- One successful (or oracle-exhausted) terminal step of the reconnect
loop: the attempt is made and the loop ends. -/
def attemptMade (a delay : Nat) : ReconnectTrace :=
  { attempts := [(a, delay)], gaveUp := false, logs := [attemptLog a delay],
    surfacedError := none }

/-- `PriseConnection.attemptReconnect`, with the outcome of each
`connect()` call supplied as an oracle list (`true` = the connection was
re-established, `false` = `connect` rejected, which re-enters
`attemptReconnect`; an exhausted oracle is read as success).  On reaching
the cap the source logs "Max reconnection attempts reached" and returns —
it neither throws nor rejects, so `surfacedError` is `none` on that
path. -/
def attemptReconnect : Nat → List Bool → ReconnectTrace
  | reconnectAttempts, [] =>
    if maxReconnectAttempts ≤ reconnectAttempts then giveUpTrace
    else attemptMade (reconnectAttempts + 1) (reconnectDelayMs * (reconnectAttempts + 1))
  | reconnectAttempts, true :: _ =>
    if maxReconnectAttempts ≤ reconnectAttempts then giveUpTrace
    else attemptMade (reconnectAttempts + 1) (reconnectDelayMs * (reconnectAttempts + 1))
  | reconnectAttempts, false :: rest =>
    if maxReconnectAttempts ≤ reconnectAttempts then giveUpTrace
    else
      let a := reconnectAttempts + 1
      let delay := reconnectDelayMs * a
      let t := attemptReconnect a rest
      { attempts := (a, delay) :: t.attempts, gaveUp := t.gaveUp,
        logs := attemptLog a delay :: "Reconnection failed" :: t.logs,
        surfacedError := t.surfacedError }

end Conn

namespace Rpc

/-- Modelled from the spec: the transport carries consecutive
self-delimiting MessagePack-encoded values with no outer framing (§6);
the codec itself is the external `msgpackr` library, absent from the
repository, so its value domain and byte format are modelled here after
the MessagePack format the spec names.  The subset covers the positional
wire shapes the client uses: nil, positive fixint, fixstr and fixarray. -/
inductive MpValue
  | nil
  | int (n : Nat)
  | str (s : List Nat)
  | arr (l : List MpValue)
  deriving Repr

mutual
/-- Well-formedness of a value for the fix-format subset: ints fit a
positive fixint, strings a fixstr, arrays a fixarray. -/
def wfB : MpValue → Bool
  | .nil => true
  | .int n => n ≤ 127
  | .str s => s.length ≤ 31
  | .arr l => l.length ≤ 15 && wfListB l
/-- `wfB` on every element of a list. -/
def wfListB : List MpValue → Bool
  | [] => true
  | v :: vs => wfB v && wfListB vs
end

mutual
/-- Modelled from the spec: MessagePack encoding of one value (fix formats:
positive fixint `0x00-0x7f`, nil `0xc0`, fixstr `0xa0|len`, fixarray
`0x90|len`). -/
def encode : MpValue → List Nat
  | .nil => [0xc0]
  | .int n => [n]
  | .str s => (0xa0 + s.length) :: s
  | .arr l => (0x90 + l.length) :: encodeList l
/-- Concatenated encodings of a list of values (fixarray payload). -/
def encodeList : List MpValue → List Nat
  | [] => []
  | v :: vs => encode v ++ encodeList vs
end

/-- A stream of consecutive encoded messages, as sent on the socket. -/
def encodeStream : List MpValue → List Nat
  | [] => []
  | v :: vs => encode v ++ encodeStream vs

mutual
/-- Modelled from the spec: MessagePack decoding of one value from the
front of a byte buffer, returning the value and the unconsumed remainder,
or `none` when the buffer is truncated mid-value (or starts with a tag
outside the modelled subset).  `fuel` is a recursion bound, an artifact of
the embedding: every lemma below holds for all sufficiently large fuel,
and `decodeOne` instantiates it large enough to be irrelevant. -/
def decodeF : Nat → List Nat → Option (MpValue × List Nat)
  | 0, _ => none
  | _ + 1, [] => none
  | fuel + 1, b :: rest =>
    if b ≤ 0x7f then some (.int b, rest)
    else if b = 0xc0 then some (.nil, rest)
    else if 0xa0 ≤ b ∧ b ≤ 0xbf then
      if b - 0xa0 ≤ rest.length then
        some (.str (rest.take (b - 0xa0)), rest.drop (b - 0xa0))
      else none
    else if 0x90 ≤ b ∧ b ≤ 0x9f then
      match decodeElemsF fuel (b - 0x90) rest with
      | some (l, r) => some (.arr l, r)
      | none => none
    else none
/-- Decode exactly `n` consecutive values (a fixarray payload). -/
def decodeElemsF : Nat → Nat → List Nat → Option (List MpValue × List Nat)
  | 0, _, _ => none
  | _ + 1, 0, bytes => some ([], bytes)
  | fuel + 1, n + 1, bytes =>
    match decodeF fuel bytes with
    | none => none
    | some (v, r) =>
      match decodeElemsF fuel n r with
      | none => none
      | some (vs, r') => some (v :: vs, r')
end

/-- Decode one value from the buffer front with sufficient fuel. -/
def decodeOne (b : List Nat) : Option (MpValue × List Nat) :=
  decodeF (2 * b.length + 2) b

/-- Inversion of a successful `decodeF` step on a non-empty buffer. -/
theorem decodeF_succ_cons_inv {f byte : Nat} {rest r : List Nat} {v : MpValue}
    (h : decodeF (f + 1) (byte :: rest) = some (v, r)) :
    (byte ≤ 0x7f ∧ v = .int byte ∧ r = rest) ∨
    (byte = 0xc0 ∧ v = .nil ∧ r = rest) ∨
    (0xa0 ≤ byte ∧ byte ≤ 0xbf ∧ byte - 0xa0 ≤ rest.length ∧
      v = .str (rest.take (byte - 0xa0)) ∧ r = rest.drop (byte - 0xa0)) ∨
    (0x90 ≤ byte ∧ byte ≤ 0x9f ∧
      ∃ l, decodeElemsF f (byte - 0x90) rest = some (l, r) ∧ v = .arr l) := by
  simp only [decodeF] at h
  split_ifs at h with h1 h2 h3 h4 h5
  · exact Or.inl ⟨h1, by simpa [eq_comm] using h.symm⟩
  · exact Or.inr (Or.inl ⟨h2, by simpa [eq_comm] using h.symm⟩)
  · refine Or.inr (Or.inr (Or.inl ⟨h3.1, h3.2, h4, ?_⟩))
    simpa [eq_comm] using h.symm
  · cases hd : decodeElemsF f (byte - 0x90) rest with
    | none => rw [hd] at h; simp at h
    | some p =>
      rw [hd] at h
      obtain ⟨l, r'⟩ := p
      simp only [Option.some.injEq, Prod.mk.injEq] at h
      obtain ⟨hv, hr⟩ := h
      subst hr
      exact Or.inr (Or.inr (Or.inr ⟨h5.1, h5.2, l, rfl, hv.symm⟩))

/-- `decodeF` on a positive-fixint head. -/
theorem decodeF_int {f byte : Nat} (rest : List Nat) (h : byte ≤ 0x7f) :
    decodeF (f + 1) (byte :: rest) = some (.int byte, rest) := by
  simp [decodeF, h]

/-- `decodeF` on a nil head. -/
theorem decodeF_nil {f : Nat} (rest : List Nat) :
    decodeF (f + 1) (0xc0 :: rest) = some (.nil, rest) := by
  norm_num [decodeF]

/-- `decodeF` on a fixstr head. -/
theorem decodeF_str {f byte : Nat} (rest : List Nat) (h1 : 0xa0 ≤ byte) (h2 : byte ≤ 0xbf) :
    decodeF (f + 1) (byte :: rest) =
      if byte - 0xa0 ≤ rest.length then
        some (.str (rest.take (byte - 0xa0)), rest.drop (byte - 0xa0))
      else none := by
  have hn1 : ¬ byte ≤ 0x7f := by omega
  have hn2 : byte ≠ 0xc0 := by omega
  simp [decodeF, hn1, hn2, h1, h2]

/-- `decodeF` on a fixarray head. -/
theorem decodeF_arr {f byte : Nat} (rest : List Nat) (h1 : 0x90 ≤ byte) (h2 : byte ≤ 0x9f) :
    decodeF (f + 1) (byte :: rest) =
      match decodeElemsF f (byte - 0x90) rest with
      | some (l, r) => some (.arr l, r)
      | none => none := by
  have hn1 : ¬ byte ≤ 0x7f := by omega
  have hn2 : byte ≠ 0xc0 := by omega
  have hn3 : ¬ (0xa0 ≤ byte ∧ byte ≤ 0xbf) := by omega
  simp [decodeF, hn1, hn2, hn3, h1, h2]

/-- Inversion of a successful multi-element decode step. -/
theorem decodeElemsF_succ_succ_inv {f m : Nat} {b r : List Nat} {l : List MpValue}
    (h : decodeElemsF (f + 1) (m + 1) b = some (l, r)) :
    ∃ v r' vs, decodeF f b = some (v, r') ∧ decodeElemsF f m r' = some (vs, r) ∧
      l = v :: vs := by
  cases hd : decodeF f b with
  | none => simp [decodeElemsF, hd] at h
  | some p =>
    obtain ⟨v, r'⟩ := p
    cases he : decodeElemsF f m r' with
    | none => simp [decodeElemsF, hd, he] at h
    | some q =>
      obtain ⟨vs, r''⟩ := q
      simp only [decodeElemsF, hd, he, Option.some.injEq, Prod.mk.injEq] at h
      obtain ⟨hl, hr⟩ := h
      subst hr
      exact ⟨v, r', vs, rfl, he, hl.symm⟩

/-- Forward direction of a multi-element decode step. -/
theorem decodeElemsF_succ_succ {f m : Nat} {b r' r : List Nat} {v : MpValue}
    {vs : List MpValue} (hd : decodeF f b = some (v, r'))
    (he : decodeElemsF f m r' = some (vs, r)) :
    decodeElemsF (f + 1) (m + 1) b = some (v :: vs, r) := by
  simp [decodeElemsF, hd, he]

/-- Adding fuel preserves every successful decode. -/
theorem decode_mono (fuel : Nat) :
    (∀ b v r, decodeF fuel b = some (v, r) → decodeF (fuel + 1) b = some (v, r)) ∧
    (∀ n b l r, decodeElemsF fuel n b = some (l, r) →
      decodeElemsF (fuel + 1) n b = some (l, r)) := by
  induction fuel with
  | zero =>
    exact ⟨fun b v r h => by simp [decodeF] at h,
           fun n b l r h => by simp [decodeElemsF] at h⟩
  | succ f ih =>
    refine ⟨?_, ?_⟩
    · intro b v r h
      cases b with
      | nil => simp [decodeF] at h
      | cons byte rest =>
        rcases decodeF_succ_cons_inv h with
          ⟨h1, hv, hr⟩ | ⟨h1, hv, hr⟩ | ⟨h1, h2, h3, hv, hr⟩ | ⟨h1, h2, l, hd, hv⟩
        · subst hv; subst hr; exact decodeF_int _ h1
        · subst h1; subst hv; subst hr; exact decodeF_nil _
        · subst hv; subst hr; rw [decodeF_str _ h1 h2, if_pos h3]
        · subst hv; rw [decodeF_arr _ h1 h2, ih.2 _ _ _ _ hd]
    · intro n b l r h
      cases n with
      | zero =>
        simp only [decodeElemsF, Option.some.injEq, Prod.mk.injEq] at h ⊢
        exact h
      | succ m =>
        obtain ⟨v, r', vs, hd, he, hl⟩ := decodeElemsF_succ_succ_inv h
        subst hl
        exact decodeElemsF_succ_succ (ih.1 _ _ _ hd) (ih.2 _ _ _ _ he)

/-- Fuel monotonicity for `decodeF`. -/
theorem decodeF_mono_le {f f' : Nat} (hle : f ≤ f') {b r : List Nat} {v : MpValue}
    (h : decodeF f b = some (v, r)) : decodeF f' b = some (v, r) := by
  induction f', hle using Nat.le_induction with
  | base => exact h
  | succ g _ ihg => exact (decode_mono g).1 _ _ _ ihg

/-- Fuel monotonicity for `decodeElemsF`. -/
theorem decodeElemsF_mono_le {f f' : Nat} (hle : f ≤ f') {n : Nat} {b r : List Nat}
    {l : List MpValue} (h : decodeElemsF f n b = some (l, r)) :
    decodeElemsF f' n b = some (l, r) := by
  induction f', hle using Nat.le_induction with
  | base => exact h
  | succ g _ ihg => exact (decode_mono g).2 _ _ _ _ ihg

/-- A successful decode consumes at least one byte; element decoding never
grows the buffer. -/
theorem decode_progress (fuel : Nat) :
    (∀ b v r, decodeF fuel b = some (v, r) → r.length < b.length) ∧
    (∀ n b l r, decodeElemsF fuel n b = some (l, r) → r.length ≤ b.length) := by
  induction fuel with
  | zero =>
    exact ⟨fun b v r h => by simp [decodeF] at h,
           fun n b l r h => by simp [decodeElemsF] at h⟩
  | succ f ih =>
    refine ⟨?_, ?_⟩
    · intro b v r h
      cases b with
      | nil => simp [decodeF] at h
      | cons byte rest =>
        rcases decodeF_succ_cons_inv h with
          ⟨h1, hv, hr⟩ | ⟨h1, hv, hr⟩ | ⟨h1, h2, h3, hv, hr⟩ | ⟨h1, h2, l, hd, hv⟩
        · subst hr; simp
        · subst hr; simp
        · subst hr; simp only [List.length_drop, List.length_cons]; omega
        · have := ih.2 _ _ _ _ hd; simp only [List.length_cons]; omega
    · intro n b l r h
      cases n with
      | zero =>
        simp only [decodeElemsF, Option.some.injEq, Prod.mk.injEq] at h
        rw [h.2]
      | succ m =>
        obtain ⟨v, r', vs, hd, he, _⟩ := decodeElemsF_succ_succ_inv h
        have h1 := ih.1 _ _ _ hd
        have h2 := ih.2 _ _ _ _ he
        omega

/-- A successful decode is insensitive to bytes past what it consumed. -/
theorem decode_ext (fuel : Nat) :
    (∀ b v r ext, decodeF fuel b = some (v, r) →
      decodeF fuel (b ++ ext) = some (v, r ++ ext)) ∧
    (∀ n b l r ext, decodeElemsF fuel n b = some (l, r) →
      decodeElemsF fuel n (b ++ ext) = some (l, r ++ ext)) := by
  induction fuel with
  | zero =>
    exact ⟨fun b v r ext h => by simp [decodeF] at h,
           fun n b l r ext h => by simp [decodeElemsF] at h⟩
  | succ f ih =>
    refine ⟨?_, ?_⟩
    · intro b v r ext h
      cases b with
      | nil => simp [decodeF] at h
      | cons byte rest =>
        rcases decodeF_succ_cons_inv h with
          ⟨h1, hv, hr⟩ | ⟨h1, hv, hr⟩ | ⟨h1, h2, h3, hv, hr⟩ | ⟨h1, h2, l, hd, hv⟩
        · subst hv; subst hr; simpa using decodeF_int (f := f) (r ++ ext) h1
        · subst h1; subst hv; subst hr; simpa using decodeF_nil (f := f) (r ++ ext)
        · subst hv; subst hr
          have hle : byte - 0xa0 ≤ (rest ++ ext).length := by
            simp only [List.length_append]; omega
          rw [List.cons_append, decodeF_str (rest ++ ext) h1 h2, if_pos hle,
            List.take_append_of_le_length h3, List.drop_append_of_le_length h3]
        · subst hv
          rw [List.cons_append, decodeF_arr (rest ++ ext) h1 h2,
            ih.2 _ _ _ _ _ hd]
    · intro n b l r ext h
      cases n with
      | zero =>
        simp only [decodeElemsF, Option.some.injEq, Prod.mk.injEq] at h ⊢
        exact ⟨h.1, by rw [h.2]⟩
      | succ m =>
        obtain ⟨v, r', vs, hd, he, hl⟩ := decodeElemsF_succ_succ_inv h
        subst hl
        exact decodeElemsF_succ_succ (ih.1 _ _ _ _ hd) (ih.2 _ _ _ _ _ he)

mutual
/-- Fuel sufficient to decode one value (an embedding artifact). -/
def need : MpValue → Nat
  | .nil => 1
  | .int _ => 1
  | .str _ => 1
  | .arr l => needList l + 1
/-- Fuel sufficient to decode each value of a list in sequence. -/
def needList : List MpValue → Nat
  | [] => 1
  | v :: vs => max (need v) (needList vs) + 1
end

theorem need_pos (v : MpValue) : 1 ≤ need v := by
  cases v <;> simp [need]

theorem needList_pos (l : List MpValue) : 1 ≤ needList l := by
  cases l <;> simp [needList]

theorem encode_length_pos (v : MpValue) : 0 < (encode v).length := by
  cases v <;> simp [encode]

/-- Round trip: decoding an encoding (with enough fuel) returns the value
and leaves exactly the trailing bytes. -/
theorem encode_decode (fuel : Nat) :
    (∀ v rest, wfB v = true → need v ≤ fuel →
      decodeF fuel (encode v ++ rest) = some (v, rest)) ∧
    (∀ l rest, wfListB l = true → needList l ≤ fuel →
      decodeElemsF fuel l.length (encodeList l ++ rest) = some (l, rest)) := by
  induction fuel with
  | zero =>
    constructor
    · intro v rest _ hne; have := need_pos v; omega
    · intro l rest _ hne; have := needList_pos l; omega
  | succ f ih =>
    refine ⟨?_, ?_⟩
    · intro v rest hwf hne
      cases v with
      | nil => simpa [encode] using decodeF_nil (f := f) rest
      | int n =>
        simp only [wfB, decide_eq_true_eq] at hwf
        simpa [encode] using decodeF_int (f := f) rest hwf
      | str s =>
        simp only [wfB, decide_eq_true_eq] at hwf
        have h1 : 0xa0 ≤ 0xa0 + s.length := by omega
        have h2 : 0xa0 + s.length ≤ 0xbf := by omega
        have hsub : 0xa0 + s.length - 0xa0 = s.length := by omega
        have hle : s.length ≤ (s ++ rest).length := by simp
        rw [encode, List.cons_append, decodeF_str (s ++ rest) h1 h2, hsub, if_pos hle,
          List.take_left, List.drop_left]
      | arr l =>
        simp only [wfB, Bool.and_eq_true, decide_eq_true_eq] at hwf
        simp only [need] at hne
        have h1 : 0x90 ≤ 0x90 + l.length := by omega
        have h2 : 0x90 + l.length ≤ 0x9f := by omega
        have hsub : 0x90 + l.length - 0x90 = l.length := by omega
        rw [encode, List.cons_append, decodeF_arr (encodeList l ++ rest) h1 h2, hsub,
          ih.2 l rest hwf.2 (by omega)]
    · intro l rest hwf hne
      cases l with
      | nil => simp [decodeElemsF, encodeList]
      | cons v vs =>
        simp only [wfListB, Bool.and_eq_true] at hwf
        simp only [needList] at hne
        have h1 : need v ≤ f := by omega
        have h2 : needList vs ≤ f := by omega
        rw [encodeList, List.append_assoc, List.length_cons]
        exact decodeElemsF_succ_succ (ih.1 v _ hwf.1 h1) (ih.2 vs rest hwf.2 h2)

/-- Determinism against an encoding: whatever fuel, a successful decode of
`encode v ++ x` can only yield `(v, x)`. -/
theorem decodeF_encode_unique {fuel : Nat} {v w : MpValue} {x r : List Nat}
    (hwf : wfB v = true) (h : decodeF fuel (encode v ++ x) = some (w, r)) :
    w = v ∧ r = x := by
  have h1 := decodeF_mono_le (le_max_left fuel (need v)) h
  have h2 := decodeF_mono_le (le_max_right fuel (need v))
    ((encode_decode (need v)).1 v x hwf le_rfl)
  rw [h1] at h2
  simp only [Option.some.injEq, Prod.mk.injEq] at h2
  exact ⟨h2.1, h2.2⟩

/-- A strict prefix of an encoding never decodes, at any fuel: the decoder
waits for the rest of the bytes instead of misreading the truncation. -/
theorem prefix_fail (fuel : Nat) :
    (∀ v p suffix, wfB v = true → suffix ≠ [] → p ++ suffix = encode v →
      decodeF fuel p = none) ∧
    (∀ l p suffix, wfListB l = true → suffix ≠ [] → p ++ suffix = encodeList l →
      decodeElemsF fuel l.length p = none) := by
  induction fuel with
  | zero => exact ⟨fun _ _ _ _ _ _ => rfl, fun _ _ _ _ _ _ => rfl⟩
  | succ f ih =>
    refine ⟨?_, ?_⟩
    · intro v p suffix hwf hsuf heq
      have hslen : 0 < suffix.length := List.length_pos.mpr hsuf
      cases v with
      | nil =>
        have hlen := congrArg List.length heq
        simp [encode] at hlen
        have : p = [] := List.eq_nil_of_length_eq_zero (by omega)
        subst this; simp [decodeF]
      | int n =>
        have hlen := congrArg List.length heq
        simp [encode] at hlen
        have : p = [] := List.eq_nil_of_length_eq_zero (by omega)
        subst this; simp [decodeF]
      | str s =>
        simp only [wfB, decide_eq_true_eq] at hwf
        cases p with
        | nil => simp [decodeF]
        | cons b p' =>
          rw [encode] at heq
          simp only [List.cons_append, List.cons.injEq] at heq
          obtain ⟨hb, htail⟩ := heq
          subst hb
          have h1 : 0xa0 ≤ 0xa0 + s.length := by omega
          have h2 : 0xa0 + s.length ≤ 0xbf := by omega
          have hsub : 0xa0 + s.length - 0xa0 = s.length := by omega
          have hplen : p'.length + suffix.length = s.length := by
            have := congrArg List.length htail; simpa using this
          have hlt : ¬ s.length ≤ p'.length := by omega
          rw [decodeF_str p' h1 h2, hsub, if_neg hlt]
      | arr l =>
        simp only [wfB, Bool.and_eq_true, decide_eq_true_eq] at hwf
        cases p with
        | nil => simp [decodeF]
        | cons b p' =>
          rw [encode] at heq
          simp only [List.cons_append, List.cons.injEq] at heq
          obtain ⟨hb, htail⟩ := heq
          subst hb
          have h1 : 0x90 ≤ 0x90 + l.length := by omega
          have h2 : 0x90 + l.length ≤ 0x9f := by omega
          have hsub : 0x90 + l.length - 0x90 = l.length := by omega
          rw [decodeF_arr p' h1 h2, hsub, ih.2 l p' suffix hwf.2 hsuf htail]
    · intro l p suffix hwf hsuf heq
      cases l with
      | nil =>
        rw [encodeList] at heq
        simp only [List.append_eq_nil] at heq
        exact absurd heq.2 hsuf
      | cons v vs =>
        simp only [wfListB, Bool.and_eq_true] at hwf
        rw [encodeList] at heq
        by_cases hlen : p.length < (encode v).length
        · have hpeq : p = (encode v).take p.length := by
            have h1 : List.take p.length (p ++ suffix) = p := List.take_left p suffix
            rw [heq, List.take_append_of_le_length (by omega)] at h1
            exact h1.symm
          have hp : p ++ (encode v).drop p.length = encode v := by
            have hq := List.take_append_drop p.length (encode v)
            rw [← hpeq] at hq
            exact hq
          have hne : (encode v).drop p.length ≠ [] := by
            rw [← List.length_pos, List.length_drop]
            omega
          have hd := ih.1 v p _ hwf.1 hne hp
          simp [decodeElemsF, List.length_cons, hd]
        · have hkp : (encode v).length ≤ p.length := by omega
          have htake : p.take (encode v).length = encode v := by
            have h1 : List.take (encode v).length (p ++ suffix) =
                List.take (encode v).length p :=
              List.take_append_of_le_length hkp
            rw [heq, List.take_left] at h1
            exact h1.symm
          have hsplit : p = encode v ++ p.drop (encode v).length := by
            conv_lhs => rw [← List.take_append_drop (encode v).length p, htake]
          have htail : p.drop (encode v).length ++ suffix = encodeList vs := by
            have hc : encode v ++ (p.drop (encode v).length ++ suffix) =
                encode v ++ encodeList vs := by
              rw [← List.append_assoc, ← hsplit, heq]
            exact List.append_cancel_left hc
          rw [hsplit]
          cases hd : decodeF f (encode v ++ p.drop (encode v).length) with
          | none => simp [decodeElemsF, List.length_cons, hd]
          | some q =>
            obtain ⟨w, r⟩ := q
            obtain ⟨hw, hr⟩ := decodeF_encode_unique hwf.1 hd
            subst hw
            subst hr
            have he := ih.2 vs _ suffix hwf.2 hsuf htail
            simp [decodeElemsF, List.length_cons, hd, he]

/-- `need` is bounded by twice the encoded length. -/
theorem need_le_encode (v : MpValue) : need v ≤ 2 * (encode v).length := by
  refine @MpValue.rec (fun v => need v ≤ 2 * (encode v).length)
    (fun l => needList l ≤ 2 * (encodeList l).length + 1) ?_ ?_ ?_ ?_ ?_ ?_ v
  · simp [need, encode]
  · intro n; simp [need, encode]
  · intro s; simp only [need, encode, List.length_cons]; omega
  · intro l hl; simp only [need, encode, List.length_cons]; omega
  · simp [needList, encodeList]
  · intro hd tl hhd htl
    simp only [needList, encodeList, List.length_append]
    have := encode_length_pos hd
    omega

/-- `decodeOne` inverts `encode` on the front of any buffer. -/
theorem decodeOne_encode {v : MpValue} (rest : List Nat) (hwf : wfB v = true) :
    decodeOne (encode v ++ rest) = some (v, rest) := by
  unfold decodeOne
  refine decodeF_mono_le ?_ ((encode_decode (need v)).1 v rest hwf le_rfl)
  have h1 := need_le_encode v
  simp only [List.length_append]
  omega

/-- `decodeOne` never misreads a truncated encoding. -/
theorem decodeOne_trunc {v : MpValue} {p suffix : List Nat} (hwf : wfB v = true)
    (hsuf : suffix ≠ []) (heq : p ++ suffix = encode v) : decodeOne p = none :=
  (prefix_fail _).1 v p suffix hwf hsuf heq

theorem decodeOne_progress {b r : List Nat} {v : MpValue}
    (h : decodeOne b = some (v, r)) : r.length < b.length :=
  (decode_progress _).1 _ _ _ h

/-- Extra trailing bytes do not disturb a successful `decodeOne`. -/
theorem decodeOne_ext {b r : List Nat} {v : MpValue} (ext : List Nat)
    (h : decodeOne b = some (v, r)) : decodeOne (b ++ ext) = some (v, r ++ ext) := by
  unfold decodeOne at h ⊢
  refine decodeF_mono_le ?_ ((decode_ext _).1 _ _ _ ext h)
  simp only [List.length_append]
  omega

/-- The decode loop of `RpcClient.processData`: extract complete messages
from the front of the buffer until the remainder no longer decodes, and
keep that remainder (`lastEnd` bookkeeping plus `buffer.subarray`). -/
def drain (b : List Nat) : List MpValue × List Nat :=
  match h : decodeOne b with
  | none => ([], b)
  | some (v, r) =>
    let p := drain r
    (v :: p.1, p.2)
termination_by b.length
decreasing_by exact decodeOne_progress h

theorem drain_eq_none {b : List Nat} (h : decodeOne b = none) : drain b = ([], b) := by
  rw [drain.eq_def]
  split
  · rfl
  · rename_i v r heq
    rw [h] at heq
    cases heq

theorem drain_eq_some {b r : List Nat} {v : MpValue} (h : decodeOne b = some (v, r)) :
    drain b = (v :: (drain r).1, (drain r).2) := by
  rw [drain.eq_def]
  split
  · rename_i heq
    rw [h] at heq
    cases heq
  · rename_i v' r' heq
    rw [h] at heq
    simp only [Option.some.injEq, Prod.mk.injEq] at heq
    obtain ⟨hv, hr⟩ := heq
    subst hv
    subst hr
    rfl

/-- Splitting the input to `drain` at any point only postpones the
messages after the split to the continuation drain. -/
theorem drain_append (b ext : List Nat) :
    drain (b ++ ext) = ((drain b).1 ++ (drain ((drain b).2 ++ ext)).1,
      (drain ((drain b).2 ++ ext)).2) := by
  suffices H : ∀ n b ext, List.length b = n →
      drain (b ++ ext) = ((drain b).1 ++ (drain ((drain b).2 ++ ext)).1,
        (drain ((drain b).2 ++ ext)).2) from H b.length b ext rfl
  intro n
  induction n using Nat.strong_induction_on with
  | _ n ih =>
    intro b ext hlen
    cases hd : decodeOne b with
    | none =>
      rw [drain_eq_none hd]
      simp
    | some q =>
      obtain ⟨v, r⟩ := q
      rw [drain_eq_some hd, drain_eq_some (decodeOne_ext ext hd)]
      have hr : r.length < n := hlen ▸ decodeOne_progress hd
      rw [ih r.length hr r ext rfl]
      simp

/-- Draining a stream of complete encodings followed by an undecodable
tail yields exactly those messages and retains the tail. -/
theorem drain_stream (msgs : List MpValue) (p : List Nat)
    (hwf : ∀ m ∈ msgs, wfB m = true) (hp : decodeOne p = none) :
    drain (encodeStream msgs ++ p) = (msgs, p) := by
  induction msgs with
  | nil => simpa [encodeStream] using drain_eq_none hp
  | cons m ms ih =>
    have h1 : decodeOne (encode m ++ (encodeStream ms ++ p)) =
        some (m, encodeStream ms ++ p) :=
      decodeOne_encode _ (hwf m (List.mem_cons_self m ms))
    rw [encodeStream, List.append_assoc, drain_eq_some h1,
      ih (fun x hx => hwf x (List.mem_cons_of_mem m hx))]

/-- `RpcClient.processData`: append the chunk to the retained buffer,
decode every complete message, and keep the undecoded remainder as the
new buffer.  The first component is the message sequence handed to
`handleMessage`, the second the new `this.buffer`. -/
def processData (buffer chunk : List Nat) : List MpValue × List Nat :=
  drain (buffer ++ chunk)

/-- `REQUEST_TIMEOUT_MS` in `rpc.ts`: the deadline of every request. -/
def REQUEST_TIMEOUT_MS : Nat := 30000

/-- The correlation state of `RpcClient`: the monotone message-id counter
and the keys of the `pendingRequests` map.  An entry's completion handle
and timer are represented by the outcome values the transition functions
return: an entry present means an unsettled promise with a live timer. -/
structure RpcState where
  msgidCounter : Nat
  pending : List Nat
  deriving DecidableEq, Repr

/-- `RpcClient` construction: counter starts at 1, no pending requests. -/
def RpcState.init : RpcState := { msgidCounter := 1, pending := [] }

/-- What the future returned by `request` settles to. -/
inductive ReqOutcome
  | resolved (result : MpValue)
  | rpcError (error : MpValue)
  | timedOut
  | sendFailed
  deriving Repr

/-- `RpcCodec.encodeRequest`: the wire shape `[0, msgid, method, params]`. -/
def encodeRequest (msgid : Nat) (method : List Nat) (params : MpValue) : List Nat :=
  encode (.arr [.int 0, .int msgid, .str method, params])

/-- `RpcClient.request`: allocate the next msgid, arm the timeout, register
the pending entry, and send the encoded request.  `sendOk` tells whether
`socket.write` threw; on a throw the entry is deleted again, the timer
cleared, and the future rejected at once. -/
def request (st : RpcState) (method : List Nat) (params : MpValue) (sendOk : Bool) :
    RpcState × Nat × List Nat × Option ReqOutcome :=
  let msgid := st.msgidCounter
  let encoded := encodeRequest msgid method params
  if sendOk then
    ({ msgidCounter := msgid + 1, pending := st.pending ++ [msgid] },
      msgid, encoded, none)
  else
    ({ msgidCounter := msgid + 1, pending := st.pending }, msgid, encoded,
      some .sendFailed)

/-- The Response branch of `RpcClient.handleMessage`: when the msgid is
pending, remove the entry, clear its timer, and settle the future —
rejecting with an RPC error when `error` is non-null (`.nil` models the
wire's null), resolving with `result` otherwise.  A msgid not in the
table produces no state change and no outcome: the response is dropped
silently. -/
def handleResponse (st : RpcState) (msgid : Nat) (error result : MpValue) :
    RpcState × Option ReqOutcome :=
  if st.pending.contains msgid then
    match error with
    | .nil => ({ st with pending := st.pending.erase msgid }, some (.resolved result))
    | e => ({ st with pending := st.pending.erase msgid }, some (.rpcError e))
  else (st, none)

/-- The `setTimeout` callback armed by `request`: delete the entry and
reject with a Timeout error.  `clearTimeout` runs atomically with entry
removal in `handleResponse`, so the callback can only ever fire while its
entry is still pending; firing for an absent id is a no-op (the promise
is already settled). -/
def fireTimeout (st : RpcState) (msgid : Nat) : RpcState × Option ReqOutcome :=
  if st.pending.contains msgid then
    ({ st with pending := st.pending.erase msgid }, some .timedOut)
  else (st, none)

/-- `RpcClient.handleMessage` on a decoded value, Response path: only a
4-element array `[1, msgid, error, result]` with a numeric msgid reaches
`handleResponse`; everything else leaves the pending table untouched
(Notifications are dispatched to handlers but never touch it). -/
def handleMessage (st : RpcState) (message : MpValue) : RpcState × Option ReqOutcome :=
  match message with
  | .arr [.int 1, .int msgid, error, result] => handleResponse st msgid error result
  | _ => (st, none)

end Rpc

namespace Render

theorem setCell_length (g : Grid) (r c : Int) (v : GCell) :
    (setCell g r c v).length = g.length := by
  unfold setCell
  split_ifs
  · cases hg : g.get? r.toNat <;> simp
  · rfl

theorem setCell_get?_ne (g : Grid) {r : Int} (c : Int) (v : GCell) {i : Nat}
    (h : (i : Int) ≠ r) : (setCell g r c v).get? i = g.get? i := by
  unfold setCell
  split_ifs with h1
  · cases hg : g.get? r.toNat with
    | none => rfl
    | some rowL =>
      refine List.get?_set_ne _ _ ?_
      omega
  · rfl

theorem setCell_row_length (g : Grid) (r c : Int) (v : GCell) (i : Nat) :
    ((setCell g r c v).get? i).map List.length = (g.get? i).map List.length := by
  unfold setCell
  split_ifs with h1
  · cases hg : g.get? r.toNat with
    | none => rfl
    | some rowL =>
      rcases eq_or_ne r.toNat i with hi | hi
      · subst hi
        rw [List.get?_set_eq, hg]
        simp
      · rw [List.get?_set_ne _ _ hi]
  · rfl

/-- The frame a `write` call respects on the grid: same number of rows,
rows other than the target untouched, every row keeping its length (so
nothing wraps into another row and nothing lands past the row end). -/
def GridFrame (g g' : Grid) (row : Int) : Prop :=
  g'.length = g.length ∧
  (∀ i : Nat, (i : Int) ≠ row → g'.get? i = g.get? i) ∧
  (∀ i : Nat, (g'.get? i).map List.length = (g.get? i).map List.length)

theorem gridFrame_refl (g : Grid) (row : Int) : GridFrame g g row :=
  ⟨rfl, fun _ _ => rfl, fun _ => rfl⟩

theorem gridFrame_setCell {g g' : Grid} {row : Int} (c : Int) (v : GCell)
    (h : GridFrame g g' row) : GridFrame g (setCell g' row c v) row := by
  obtain ⟨h1, h2, h3⟩ := h
  refine ⟨by rw [setCell_length, h1], fun i hi => ?_, fun i => ?_⟩
  · rw [setCell_get?_ne _ _ _ hi, h2 i hi]
  · rw [setCell_row_length, h3]

theorem writeRep_frame (cols : Nat) (row : Int) (grapheme : String)
    (styleId : Option Nat) (width : Nat) (rep : Nat) :
    ∀ c g d g₀, GridFrame g₀ g row →
      GridFrame g₀ (writeRep cols row grapheme styleId width rep (c, g, d)).2.1 row := by
  induction rep with
  | zero => intro c g d g₀ h; exact h
  | succ n ih =>
    intro c g d g₀ h
    rw [writeRep]
    split_ifs
    · exact h
    · exact ih _ _ _ _ (gridFrame_setCell _ _ (gridFrame_setCell _ _ h))
    · exact ih _ _ _ _ (gridFrame_setCell _ _ h)

theorem writeLoop_frame (cols : Nat) (row : Int) (cells : List Cell) :
    ∀ cur c g d g₀, GridFrame g₀ g row →
      GridFrame g₀ (writeLoop cols row cells (cur, c, g, d)).2.2.1 row := by
  induction cells with
  | nil => intro cur c g d g₀ h; exact h
  | cons cell rest ih =>
    intro cur c g d g₀ h
    rw [writeLoop]
    split_ifs
    · exact h
    · exact ih _ _ _ _ _ (writeRep_frame _ _ _ _ _ _ _ _ _ _ h)

/-- `write` keeps every other row (and every row's length) intact. -/
theorem write_frame (st : RState) (row col : Int) (cells : List Cell) :
    GridFrame st.grid (st.write row col cells).grid row := by
  unfold RState.write
  split_ifs
  · exact gridFrame_refl _ _
  · exact writeLoop_frame _ _ _ _ _ _ _ _ (gridFrame_refl _ _)

theorem cellAt_setCell_self (g : Grid) {r c : Int} (v : GCell) (hr0 : 0 ≤ r)
    (hc0 : 0 ≤ c) {rowL : List GCell} (hrow : g.get? r.toNat = some rowL)
    (hc : c.toNat < rowL.length) :
    cellAt (setCell g r c v) r c = some v := by
  unfold cellAt setCell
  rw [if_pos ⟨hr0, hc0⟩, if_pos ⟨hr0, hc0⟩, hrow]
  have hrl : r.toNat < g.length := (List.get?_eq_some.mp hrow).1
  rw [List.get?_set_eq_of_lt _ (by simpa using hrl)]
  exact List.get?_set_eq_of_lt _ hc

theorem setCell_get?_row (g : Grid) {r c : Int} (v : GCell) (hr0 : 0 ≤ r)
    (hc0 : 0 ≤ c) {rowL : List GCell} (hrow : g.get? r.toNat = some rowL) :
    (setCell g r c v).get? r.toNat = some (rowL.set c.toNat v) := by
  unfold setCell
  rw [if_pos ⟨hr0, hc0⟩, hrow]
  exact List.get?_set_eq_of_lt _ (by simpa using (List.get?_eq_some.mp hrow).1)

/-- The grid after writing one width-2 cell within bounds: the grapheme at
the target column and a blank continuation cell with the same style at the
next column. -/
theorem write_w2_grid (st : RState) (row col : Int) (g : String) (sid : Option Nat)
    (hr : ¬ (row < 0 ∨ (st.rows : Int) ≤ row)) (hc : col + 1 < (st.cols : Int)) :
    (st.write row col [⟨g, sid, none, some 2⟩]).grid =
      setCell (setCell st.grid row col ⟨g, sid⟩) row (col + 1) ⟨" ", sid⟩ := by
  have h1 : ¬ ((st.cols : Int) ≤ col) := by omega
  unfold RState.write
  rw [if_neg hr]
  cases sid <;> simp [writeLoop, writeRep, Option.getD, h1, hc]

/-- The grid after writing a styled cell followed by a style-less cell:
the second cell inherits the first cell's explicit style id. -/
theorem write_style_reuse_grid (st : RState) (row col : Int) (g1 g2 : String) (s : Nat)
    (hr : ¬ (row < 0 ∨ (st.rows : Int) ≤ row)) (hc : col + 1 < (st.cols : Int)) :
    (st.write row col [⟨g1, some s, none, none⟩, ⟨g2, none, none, none⟩]).grid =
      setCell (setCell st.grid row col ⟨g1, some s⟩) row (col + 1) ⟨g2, some s⟩ := by
  have h1 : ¬ ((st.cols : Int) ≤ col) := by omega
  have h2 : ¬ ((st.cols : Int) ≤ col + 1) := by omega
  unfold RState.write
  rw [if_neg hr]
  simp [writeLoop, writeRep, Option.getD, h1, h2]

theorem cellAt_setCell_ne (g : Grid) {r c : Int} (v : GCell) {r' c' : Int}
    (h : ¬ (r' = r ∧ c' = c)) : cellAt (setCell g r c v) r' c' = cellAt g r' c' := by
  unfold cellAt setCell
  split_ifs with h1 h2
  · cases hg : g.get? r.toNat with
    | none => rfl
    | some rowL =>
      dsimp only
      rcases eq_or_ne r'.toNat r.toNat with hr | hr
      · have hrr : r' = r := by omega
        subst hrr
        have hc' : c' ≠ c := fun hcc => h ⟨rfl, hcc⟩
        have hlen : r'.toNat < g.length := (List.get?_eq_some.mp hg).1
        rw [List.get?_set_eq_of_lt _ (by simpa using hlen), hg]
        exact List.get?_set_ne _ _ (by omega)
      · rw [List.get?_set_ne _ _ (by omega)]
  · rfl
  · rfl

end Render

section ClaimTheorems
open Layout Render Keys Conn Rpc

/-- **C8** — Palette resolution: indices 0–15 resolve through the fixed
16-entry ANSI table; 16–231 through the 6×6×6 cube with channel steps
`{0,95,135,175,215,255}` indexed by the three base-6 digits of
`index − 16`; 232–255 through the grayscale ramp `8 + (index−232)·10` in
all three channels; and index 21 resolves to RGB (0,0,255). -/
theorem c8_palette_resolution (idx : Int) :
    (0 ≤ idx ∧ idx ≤ 15 →
      xtermIndexToRgb idx =
        ⟨(basicAnsi.getD idx.toNat (0, 0, 0)).1,
         (basicAnsi.getD idx.toNat (0, 0, 0)).2.1,
         (basicAnsi.getD idx.toNat (0, 0, 0)).2.2⟩) ∧
    (16 ≤ idx ∧ idx ≤ 231 →
      xtermIndexToRgb idx =
        ⟨cubeSteps.getD ((idx - 16).toNat / 36 % 6) 0,
         cubeSteps.getD ((idx - 16).toNat / 6 % 6) 0,
         cubeSteps.getD ((idx - 16).toNat % 6) 0⟩) ∧
    (232 ≤ idx ∧ idx ≤ 255 →
      xtermIndexToRgb idx =
        ⟨8 + (idx - 232).toNat * 10, 8 + (idx - 232).toNat * 10,
         8 + (idx - 232).toNat * 10⟩) ∧
    xtermIndexToRgb 21 = ⟨0, 0, 255⟩ := by
  refine ⟨?_, ?_, ?_, by decide⟩
  · intro h
    unfold xtermIndexToRgb
    rw [if_pos h]
  · intro h
    unfold xtermIndexToRgb
    rw [if_neg (by omega), if_pos (by omega)]
    have e1 : (idx - 16).toNat / 36 % 6 = (idx - 16).toNat / 36 := by omega
    have e2 : (idx - 16).toNat % 36 / 6 = (idx - 16).toNat / 6 % 6 := by omega
    rw [e1, ← e2]
  · intro h
    unfold xtermIndexToRgb
    rw [if_neg (by omega), if_neg (by omega), if_pos (by omega)]

/-- Witness for `c8_palette_resolution` at indices 5, 21 and 240. -/
theorem c8_palette_resolution_witness :
    ((0 : Int) ≤ 5 ∧ (5 : Int) ≤ 15) ∧
    xtermIndexToRgb 5 =
      ⟨(basicAnsi.getD (5 : Int).toNat (0, 0, 0)).1,
       (basicAnsi.getD (5 : Int).toNat (0, 0, 0)).2.1,
       (basicAnsi.getD (5 : Int).toNat (0, 0, 0)).2.2⟩ ∧
    xtermIndexToRgb 21 =
      ⟨cubeSteps.getD (((21 : Int) - 16).toNat / 36 % 6) 0,
       cubeSteps.getD (((21 : Int) - 16).toNat / 6 % 6) 0,
       cubeSteps.getD (((21 : Int) - 16).toNat % 6) 0⟩ ∧
    xtermIndexToRgb 240 =
      ⟨8 + ((240 : Int) - 232).toNat * 10, 8 + ((240 : Int) - 232).toNat * 10,
       8 + ((240 : Int) - 232).toNat * 10⟩ :=
  ⟨by decide, (c8_palette_resolution 5).1 (by decide),
   (c8_palette_resolution 21).2.1 (by decide),
   (c8_palette_resolution 240).2.2.1 (by decide)⟩

/-- **C10** — `Renderer.write` with a row outside `0 ≤ row < rows` is a
complete no-op: the whole renderer state (grid, dirty set, style table,
cursor, selection, title) is returned unchanged, and nothing is raised
(the embedding is a total function). -/
theorem c10_write_bad_row_noop (st : RState) (row col : Int) (cells : List Cell)
    (h : row < 0 ∨ (st.rows : Int) ≤ row) :
    st.write row col cells = st := by
  unfold RState.write
  rw [if_pos h]

/-- **C5** — `write` semantics: cells apply left to right from
`(row, col)`; a width-2 cell writes its grapheme and a blank continuation
cell sharing the same style at the next column, advancing two columns; a
cell with no style id reuses the most recent explicit style id of the
same call; and writes never leave the target row or its length (truncated,
not wrapped).  Concretely, `write(2, 0, [A, B(width 2)])` on a 10-column
grid sets `(2,0)="A"`, `(2,1)="B"`, `(2,2)=" "`, and the same width-2
cell at column 9 writes only column 9 (its continuation is cut off; row 3
and the row length are untouched). -/
theorem c5_write_cells_semantics :
    (∀ (st : RState) (row col : Int) (cells : List Cell),
      GridFrame st.grid (st.write row col cells).grid row) ∧
    (∀ (st : RState) (row col : Int) (g : String) (sid : Option Nat),
      wfGrid st → 0 ≤ row → row < (st.rows : Int) → 0 ≤ col →
      col + 1 < (st.cols : Int) →
      getCell (st.write row col [⟨g, sid, none, some 2⟩]) row col = some ⟨g, sid⟩ ∧
      getCell (st.write row col [⟨g, sid, none, some 2⟩]) row (col + 1) =
        some ⟨" ", sid⟩) ∧
    (∀ (st : RState) (row col : Int) (g1 g2 : String) (s : Nat),
      wfGrid st → 0 ≤ row → row < (st.rows : Int) → 0 ≤ col →
      col + 1 < (st.cols : Int) →
      getCell (st.write row col [⟨g1, some s, none, none⟩, ⟨g2, none, none, none⟩])
        row col = some ⟨g1, some s⟩ ∧
      getCell (st.write row col [⟨g1, some s, none, none⟩, ⟨g2, none, none, none⟩])
        row (col + 1) = some ⟨g2, some s⟩) ∧
    (getCell ((Renderer.init 5 10).write 2 0
        [⟨"A", none, none, none⟩, ⟨"B", none, none, some 2⟩]) 2 0 =
          some ⟨"A", none⟩ ∧
      getCell ((Renderer.init 5 10).write 2 0
        [⟨"A", none, none, none⟩, ⟨"B", none, none, some 2⟩]) 2 1 =
          some ⟨"B", none⟩ ∧
      getCell ((Renderer.init 5 10).write 2 0
        [⟨"A", none, none, none⟩, ⟨"B", none, none, some 2⟩]) 2 2 =
          some ⟨" ", none⟩) ∧
    (getCell ((Renderer.init 5 10).write 2 9 [⟨"B", none, none, some 2⟩]) 2 9 =
        some ⟨"B", none⟩ ∧
      ((Renderer.init 5 10).write 2 9 [⟨"B", none, none, some 2⟩]).grid.get? 3 =
        (Renderer.init 5 10).grid.get? 3 ∧
      (((Renderer.init 5 10).write 2 9
          [⟨"B", none, none, some 2⟩]).grid.get? 2).map List.length = some 10) := by
  refine ⟨fun st row col cells => write_frame st row col cells, ?_, ?_, by decide, by decide⟩
  · intro st row col g sid hw hr0 hr hc0 hc
    obtain ⟨hgl, hgrow⟩ := hw
    have hgr := write_w2_grid st row col g sid (by omega) hc
    have hrn : row.toNat < st.grid.length := by rw [hgl]; omega
    cases hrowE : st.grid.get? row.toNat with
    | none => rw [List.get?_eq_none] at hrowE; omega
    | some rowL =>
      have hrlen : rowL.length = st.cols := hgrow rowL (List.get?_mem hrowE)
      constructor
      · rw [getCell, hgr, cellAt_setCell_ne _ _ (by rintro ⟨-, h2⟩; omega)]
        exact cellAt_setCell_self _ _ hr0 hc0 hrowE (by omega)
      · rw [getCell, hgr]
        have hrow1 : (setCell st.grid row col ⟨g, sid⟩).get? row.toNat =
            some (rowL.set col.toNat ⟨g, sid⟩) := setCell_get?_row _ _ hr0 hc0 hrowE
        refine cellAt_setCell_self _ _ hr0 (by omega) hrow1 ?_
        rw [List.length_set]
        omega
  · intro st row col g1 g2 s hw hr0 hr hc0 hc
    obtain ⟨hgl, hgrow⟩ := hw
    have hgr := write_style_reuse_grid st row col g1 g2 s (by omega) hc
    have hrn : row.toNat < st.grid.length := by rw [hgl]; omega
    cases hrowE : st.grid.get? row.toNat with
    | none => rw [List.get?_eq_none] at hrowE; omega
    | some rowL =>
      have hrlen : rowL.length = st.cols := hgrow rowL (List.get?_mem hrowE)
      constructor
      · rw [getCell, hgr, cellAt_setCell_ne _ _ (by rintro ⟨-, h2⟩; omega)]
        exact cellAt_setCell_self _ _ hr0 hc0 hrowE (by omega)
      · rw [getCell, hgr]
        have hrow1 : (setCell st.grid row col ⟨g1, some s⟩).get? row.toNat =
            some (rowL.set col.toNat ⟨g1, some s⟩) := setCell_get?_row _ _ hr0 hc0 hrowE
        refine cellAt_setCell_self _ _ hr0 (by omega) hrow1 ?_
        rw [List.length_set]
        omega

/-- Witness for `c5_write_cells_semantics` on a 4×8 renderer. -/
theorem c5_write_cells_semantics_witness :
    (wfGrid (Renderer.init 4 8) ∧ (0 : Int) ≤ 1 ∧ (1 : Int) < ((Renderer.init 4 8).rows : Int) ∧
      (0 : Int) ≤ 2 ∧ (2 : Int) + 1 < ((Renderer.init 4 8).cols : Int)) ∧
    (getCell ((Renderer.init 4 8).write 1 2 [⟨"W", some 9, none, some 2⟩]) 1 2 =
        some ⟨"W", some 9⟩ ∧
      getCell ((Renderer.init 4 8).write 1 2 [⟨"W", some 9, none, some 2⟩]) 1 (2 + 1) =
        some ⟨" ", some 9⟩) ∧
    (getCell ((Renderer.init 4 8).write 1 2
        [⟨"u", some 3, none, none⟩, ⟨"v", none, none, none⟩]) 1 2 = some ⟨"u", some 3⟩ ∧
      getCell ((Renderer.init 4 8).write 1 2
        [⟨"u", some 3, none, none⟩, ⟨"v", none, none, none⟩]) 1 (2 + 1) =
        some ⟨"v", some 3⟩) :=
  ⟨⟨⟨by decide, by decide⟩, by decide, by decide, by decide, by decide⟩,
   c5_write_cells_semantics.2.1 (Renderer.init 4 8) 1 2 "W" (some 9)
     ⟨by decide, by decide⟩ (by decide) (by decide) (by decide) (by decide),
   c5_write_cells_semantics.2.2.1 (Renderer.init 4 8) 1 2 "u" "v" 3
     ⟨by decide, by decide⟩ (by decide) (by decide) (by decide) (by decide)⟩

/-- Witness for `c10_write_bad_row_noop` on a 3×3 renderer at row 5. -/
theorem c10_write_bad_row_noop_witness :
    ((5 : Int) < 0 ∨ (((Renderer.init 3 3).rows : Nat) : Int) ≤ 5) ∧
    (Renderer.init 3 3).write 5 0 [⟨"A", none, none, none⟩] = Renderer.init 3 3 :=
  ⟨by decide, c10_write_bad_row_noop _ 5 0 _ (by decide)⟩

/-- **C7** — WaitingForCommand behaviour of the prefix matcher: Escape
returns to Idle emitting Noop; any other key is looked up in the fixed
command table and the machine returns to Idle unconditionally; the table
maps h/j/k/l and the arrow keys to Focus, `%` to Split(horizontal), `"`
to Split(vertical), the prefix chord key `b` to SendInput of the literal
prefix byte 0x02, and c/n/p/x/d to NewTab/NextTab/PrevTab/ClosePane/
Detach; every key outside the table yields Noop. -/
theorem c7_waiting_command_table :
    (∀ ev : KeyEvent, lowerKey ev.key = "escape" →
      processKey true ev = (some .noop, false)) ∧
    (∀ ev : KeyEvent, lowerKey ev.key ≠ "escape" →
      processKey true ev = (some (interpretCommand (lowerKey ev.key)), false)) ∧
    interpretCommand "h" = .focus .left ∧
    interpretCommand "j" = .focus .down ∧
    interpretCommand "k" = .focus .up ∧
    interpretCommand "l" = .focus .right ∧
    interpretCommand "left" = .focus .left ∧
    interpretCommand "down" = .focus .down ∧
    interpretCommand "up" = .focus .up ∧
    interpretCommand "right" = .focus .right ∧
    interpretCommand "%" = .split .horizontal ∧
    interpretCommand "\"" = .split .vertical ∧
    interpretCommand "b" = .sendToPty "\x02" ∧
    interpretCommand "c" = .newTab ∧
    interpretCommand "n" = .nextTab ∧
    interpretCommand "p" = .prevTab ∧
    interpretCommand "x" = .closePane ∧
    interpretCommand "d" = .detach ∧
    (∀ k : String, k ∉ commandKeys → interpretCommand k = .noop) := by
  refine ⟨?_, ?_, rfl, rfl, rfl, rfl, rfl, rfl, rfl, rfl, rfl, rfl, rfl, rfl,
    rfl, rfl, rfl, rfl, ?_⟩
  · intro ev h
    simp [processKey, h]
  · intro ev h
    simp [processKey, h]
  · intro k hk
    simp only [commandKeys, List.mem_cons, List.not_mem_nil, or_false, not_or] at hk
    obtain ⟨n1, n2, n3, n4, n5, n6, n7, n8, n9, n10, n11, n12, n13, n14, n15, n16⟩ := hk
    simp [interpretCommand, n1, n2, n3, n4, n5, n6, n7, n8, n9, n10, n11, n12, n13,
      n14, n15, n16]

/-- Witness for `c7_waiting_command_table`: Escape cancels; `%` maps
through the table; `q` is not a command key and yields Noop. -/
theorem c7_waiting_command_table_witness :
    (lowerKey (⟨"Escape", false, false, false, false⟩ : KeyEvent).key = "escape" ∧
      processKey true ⟨"Escape", false, false, false, false⟩ = (some .noop, false)) ∧
    (lowerKey (⟨"%", false, false, false, false⟩ : KeyEvent).key ≠ "escape" ∧
      processKey true ⟨"%", false, false, false, false⟩ =
        (some (interpretCommand (lowerKey (⟨"%", false, false, false, false⟩ :
          KeyEvent).key)), false)) ∧
    ("q" ∉ commandKeys ∧ interpretCommand "q" = .noop) :=
  ⟨⟨by decide, c7_waiting_command_table.1 _ (by decide)⟩,
   ⟨by decide, c7_waiting_command_table.2.1 _ (by decide)⟩,
   ⟨by decide, c7_waiting_command_table.2.2.2.2.2.2.2.2.2.2.2.2.2.2.2.2.2.2 "q"
     (by decide)⟩⟩

/-- **C2** (counterexample) — with every reconnect attempt failing, the
manager makes exactly the 5 capped attempts with linear delays and then
stops, but `surfacedError` is `none`: nothing escalates to the caller,
refuting the claim that exhaustion surfaces a terminal failure rather
than a log line. -/
theorem c2_reconnect_exhaustion_counterexample :
    (attemptReconnect 0 (List.replicate 6 false)).attempts =
      [(1, 1000), (2, 2000), (3, 3000), (4, 4000), (5, 5000)] ∧
    (attemptReconnect 0 (List.replicate 6 false)).gaveUp = true ∧
    ¬ (attemptReconnect 0 (List.replicate 6 false)).surfacedError ≠ none := by
  refine ⟨by decide, by decide, by decide⟩

/-- **C2** (amended) — the reconnect loop is bounded: attempt `k` is
delayed by `1000·k` ms and re-invokes `connect`; after the 5th failed
attempt the loop stops (`gaveUp`), emitting only the log line
"Max reconnection attempts reached"; no run of `attemptReconnect`, on any
oracle, ever surfaces an error to its caller — the manager goes quiet. -/
theorem c2_reconnect_bounded_silent :
    (∀ a oracle, (attemptReconnect a oracle).surfacedError = none) ∧
    (∀ a oracle p, p ∈ (attemptReconnect a oracle).attempts →
      p.1 ≤ maxReconnectAttempts ∧ p.2 = reconnectDelayMs * p.1) ∧
    (∀ oracle, attemptReconnect 5 oracle = giveUpTrace) ∧
    (attemptReconnect 0 (List.replicate 5 false)).attempts =
      [(1, 1000), (2, 2000), (3, 3000), (4, 4000), (5, 5000)] ∧
    (attemptReconnect 0 (List.replicate 5 false)).gaveUp = true := by
  refine ⟨?_, ?_, ?_, by decide, by decide⟩
  · intro a oracle
    induction oracle generalizing a with
    | nil =>
      rw [attemptReconnect]
      split_ifs <;> rfl
    | cons x rest ih =>
      cases x
      · rw [attemptReconnect]
        split_ifs
        · rfl
        · simpa using ih (a + 1)
      · rw [attemptReconnect]
        split_ifs <;> rfl
  · intro a oracle
    induction oracle generalizing a with
    | nil =>
      intro p hp
      rw [attemptReconnect] at hp
      split_ifs at hp with hcap
      · simp [giveUpTrace] at hp
      · simp only [attemptMade, List.mem_singleton] at hp
        subst hp
        unfold maxReconnectAttempts at hcap ⊢
        exact ⟨by omega, rfl⟩
    | cons x rest ih =>
      intro p hp
      cases x
      · rw [attemptReconnect] at hp
        split_ifs at hp with hcap
        · simp [giveUpTrace] at hp
        · simp only [List.mem_cons] at hp
          rcases hp with hp | hp
          · subst hp
            unfold maxReconnectAttempts at hcap ⊢
            exact ⟨by omega, rfl⟩
          · exact ih (a + 1) p hp
      · rw [attemptReconnect] at hp
        split_ifs at hp with hcap
        · simp [giveUpTrace] at hp
        · simp only [attemptMade, List.mem_singleton] at hp
          subst hp
          unfold maxReconnectAttempts at hcap ⊢
          exact ⟨by omega, rfl⟩
  · intro oracle
    cases oracle with
    | nil => rw [attemptReconnect]; rfl
    | cons x rest => cases x <;> (rw [attemptReconnect]; rfl)

/-- Witness for `c2_reconnect_bounded_silent`: the first attempt after one
failure is attempt 1 with delay 1000 ms. -/
theorem c2_reconnect_bounded_silent_witness :
    ((1, 1000) ∈ (attemptReconnect 0 [false]).attempts) ∧
    ((1, 1000).1 ≤ maxReconnectAttempts ∧
      (1, 1000).2 = reconnectDelayMs * (1, 1000).1) :=
  ⟨by decide, c2_reconnect_bounded_silent.2.1 0 [false] (1, 1000) (by decide)⟩

/-- **C3** — request/response correlation: a Response whose id is pending
and whose error is null resolves the future with `result`; a non-null
error rejects it with an RPC error; the timeout firing rejects it with a
Timeout error; each of these removes the pending entry, and (the pending
list being duplicate-free, as `request`'s fresh monotone ids keep it) the
removal happens exactly once — afterwards, and for any id not in the
table, a Response or timer event changes nothing and produces nothing:
the stale Response is dropped silently.  `request` itself registers the
fresh id and preserves freshness and distinctness. -/
theorem c3_response_timeout_correlation :
    (∀ (st : RpcState) (msgid : Nat) (r : MpValue), st.pending.contains msgid = true →
      handleResponse st msgid .nil r =
        ({ st with pending := st.pending.erase msgid }, some (.resolved r))) ∧
    (∀ (st : RpcState) (msgid : Nat) (e r : MpValue), st.pending.contains msgid = true →
      e ≠ .nil →
      handleResponse st msgid e r =
        ({ st with pending := st.pending.erase msgid }, some (.rpcError e))) ∧
    (∀ (st : RpcState) (msgid : Nat), st.pending.contains msgid = true →
      fireTimeout st msgid =
        ({ st with pending := st.pending.erase msgid }, some .timedOut)) ∧
    (∀ (st : RpcState) (msgid : Nat), st.pending.Nodup →
      msgid ∉ st.pending.erase msgid) ∧
    (∀ (st : RpcState) (msgid : Nat) (e r : MpValue),
      st.pending.contains msgid = false →
      handleResponse st msgid e r = (st, none) ∧ fireTimeout st msgid = (st, none) ∧
      handleMessage st (.arr [.int 1, .int msgid, e, r]) = (st, none)) ∧
    (∀ (st : RpcState) (method : List Nat) (params : MpValue),
      (∀ i ∈ st.pending, i < st.msgidCounter) → st.pending.Nodup →
      (request st method params true).1.pending = st.pending ++ [st.msgidCounter] ∧
      (request st method params true).1.pending.Nodup ∧
      ∀ i ∈ (request st method params true).1.pending,
        i < (request st method params true).1.msgidCounter) := by
  refine ⟨?_, ?_, ?_, ?_, ?_, ?_⟩
  · intro st msgid r hc
    have hm : msgid ∈ st.pending := by simpa using hc
    simp [handleResponse, hm]
  · intro st msgid e r hc he
    have hm : msgid ∈ st.pending := by simpa using hc
    cases e <;> simp [handleResponse, hm] <;> simp at he
  · intro st msgid hc
    have hm : msgid ∈ st.pending := by simpa using hc
    simp [fireTimeout, hm]
  · intro st msgid hnd
    exact hnd.not_mem_erase
  · intro st msgid e r hc
    have hm : msgid ∉ st.pending := by simpa using hc
    refine ⟨by simp [handleResponse, hm], by simp [fireTimeout, hm], ?_⟩
    simp [handleMessage, handleResponse, hm]
  · intro st method params hlt hnd
    have hreq : (request st method params true).1 =
        ⟨st.msgidCounter + 1, st.pending ++ [st.msgidCounter]⟩ := rfl
    rw [hreq]
    refine ⟨rfl, ?_, ?_⟩
    · rw [List.nodup_append]
      exact ⟨hnd, List.nodup_singleton _,
        fun a ha hb => by simp at hb; subst hb; exact absurd (hlt _ ha) (by omega)⟩
    · intro i hi
      simp only [List.mem_append, List.mem_singleton] at hi
      rcases hi with hi | hi
      · have := hlt i hi
        simp only
        omega
      · subst hi
        simp only
        omega

/-- Witness for `c3_response_timeout_correlation` on the state with the
single pending id 1. -/
theorem c3_response_timeout_correlation_witness :
    (((⟨2, [1]⟩ : RpcState).pending.contains 1 = true) ∧
      handleResponse ⟨2, [1]⟩ 1 .nil (.int 7) =
        ({ (⟨2, [1]⟩ : RpcState) with pending := ([1] : List Nat).erase 1 },
          some (.resolved (.int 7)))) ∧
    (((MpValue.str [101]) ≠ MpValue.nil) ∧
      handleResponse ⟨2, [1]⟩ 1 (.str [101]) .nil =
        ({ (⟨2, [1]⟩ : RpcState) with pending := ([1] : List Nat).erase 1 },
          some (.rpcError (.str [101])))) ∧
    (fireTimeout ⟨2, [1]⟩ 1 =
      ({ (⟨2, [1]⟩ : RpcState) with pending := ([1] : List Nat).erase 1 },
        some .timedOut)) ∧
    ((1 : Nat) ∉ ([1] : List Nat).erase 1) ∧
    (handleResponse ⟨2, []⟩ 1 .nil .nil = (⟨2, []⟩, none) ∧
      fireTimeout ⟨2, []⟩ 1 = (⟨2, []⟩, none) ∧
      handleMessage ⟨2, []⟩ (.arr [.int 1, .int 1, .nil, .nil]) = (⟨2, []⟩, none)) ∧
    ((request ⟨2, [1]⟩ [109] .nil true).1.pending = [1] ++ [2] ∧
      (request ⟨2, [1]⟩ [109] .nil true).1.pending.Nodup) :=
  ⟨⟨by decide, c3_response_timeout_correlation.1 ⟨2, [1]⟩ 1 (.int 7) (by decide)⟩,
   ⟨by simp, c3_response_timeout_correlation.2.1 ⟨2, [1]⟩ 1 (.str [101]) .nil
     (by decide) (by simp)⟩,
   c3_response_timeout_correlation.2.2.1 ⟨2, [1]⟩ 1 (by decide),
   c3_response_timeout_correlation.2.2.2.1 ⟨2, [1]⟩ 1 (by decide),
   c3_response_timeout_correlation.2.2.2.2.1 ⟨2, []⟩ 1 .nil .nil (by decide),
   ⟨(c3_response_timeout_correlation.2.2.2.2.2 ⟨2, [1]⟩ [109] .nil
       (by intro i hi; simp at hi; subst hi; decide) (by decide)).1,
    (c3_response_timeout_correlation.2.2.2.2.2 ⟨2, [1]⟩ [109] .nil
       (by intro i hi; simp at hi; subst hi; decide) (by decide)).2.1⟩⟩

/-- **C4** — the incremental decoder: feeding any byte sequence split at
any point into two successive `processData` calls yields exactly the
message sequence and final retained buffer of feeding it whole; and a
buffer holding complete encoded messages followed by a truncated message
never raises (the embedding is a total function), yields exactly the
complete messages, and retains the truncated tail for the next call. -/
theorem c4_processData_chunk_invariance :
    (∀ buffer chunk1 chunk2 : List Nat,
      (processData buffer chunk1).1 ++
          (processData (processData buffer chunk1).2 chunk2).1 =
        (processData buffer (chunk1 ++ chunk2)).1 ∧
      (processData (processData buffer chunk1).2 chunk2).2 =
        (processData buffer (chunk1 ++ chunk2)).2) ∧
    (∀ (msgs : List MpValue) (v : MpValue) (p suffix : List Nat),
      (∀ m ∈ msgs, wfB m = true) → wfB v = true → suffix ≠ [] →
      p ++ suffix = encode v →
      processData [] (encodeStream msgs ++ p) = (msgs, p)) := by
  constructor
  · intro buffer chunk1 chunk2
    unfold processData
    rw [← List.append_assoc]
    rw [drain_append (buffer ++ chunk1) chunk2]
    exact ⟨rfl, rfl⟩
  · intro msgs v p suffix hwf hv hsuf heq
    unfold processData
    rw [List.nil_append]
    exact drain_stream msgs p hwf (decodeOne_trunc hv hsuf heq)

/-- Witness for `c4_processData_chunk_invariance`: one complete Response
message followed by the first two bytes of a fixstr. -/
theorem c4_processData_chunk_invariance_witness :
    ((∀ m ∈ [MpValue.arr [.int 1, .int 7, .nil, .int 42]], wfB m = true) ∧
      wfB (.str [65, 66]) = true ∧ ([66] : List Nat) ≠ [] ∧
      [0xa2, 65] ++ [66] = encode (.str [65, 66])) ∧
    processData []
        (encodeStream [MpValue.arr [.int 1, .int 7, .nil, .int 42]] ++ [0xa2, 65]) =
      ([MpValue.arr [.int 1, .int 7, .nil, .int 42]], [0xa2, 65]) :=
  ⟨⟨by intro m hm; simp at hm; subst hm; rfl, rfl, by simp, by simp [encode]⟩,
   c4_processData_chunk_invariance.2 [MpValue.arr [.int 1, .int 7, .nil, .int 42]]
     (.str [65, 66]) [0xa2, 65] [66]
     (by intro m hm; simp at hm; subst hm; rfl) rfl (by simp) (by simp [encode])⟩

/-- **C1** (code at the failing input) — from the initial single-pane
layout: split (panes 1,2; pane 2 focused), refocus pane 1, split again.
`splitPane` replaces leaf 1 by `Split{ratio 1/2, first := pane 1,
second := fresh pane 3 (ptyId null)}` as specified — but `splitFocused`
then sets `focusedPaneId` to the **last pane in pre-order**, pane 2, not
the newly created pane 3, contradicting the spec and the source's own
comment that the new pane ("always the second child of the new split")
becomes focused. -/
theorem c1_splitFocused_wrong_focus :
    (splitFocused (moveFocusToPane (splitFocused (initLayout ⟨0, 0⟩).1 .horizontal
        ⟨1, 1⟩).1 1) .horizontal ⟨2, 1⟩).1 =
      (⟨[⟨1,
          .split .horizontal (1 / 2 : ℚ)
            (.split .horizontal (1 / 2 : ℚ) (.pane 1 none) (.pane 3 none))
            (.pane 2 none),
          2⟩],
        1⟩ : LayoutState) := by
  rfl

end ClaimTheorems

namespace Layout

theorem getAllPaneIds_ne_nil : ∀ t : LayoutNode, getAllPaneIds t ≠ []
  | .pane id pty => by simp [getAllPaneIds]
  | .split d r f s => by
    have hf := getAllPaneIds_ne_nil f
    simp [getAllPaneIds]
    intro h
    exact absurd h hf

/-- `closeFocused` on an active tab holding exactly one pane closes the
tab (the pane is the focused one, so `closePane` empties the tree). -/
theorem closeFocused_single_pane (s : LayoutState) (tab : Tab)
    (hact : getActiveTab s = some tab)
    (hone : (getAllPaneIds tab.root).length = 1)
    (hmem : tab.focusedPaneId ∈ getAllPaneIds tab.root) :
    closeFocused s = closeTab s tab.id := by
  unfold closeFocused
  rw [hact]
  dsimp only
  cases hroot : tab.root with
  | pane id pty =>
    rw [hroot] at hmem
    simp only [getAllPaneIds, List.mem_singleton] at hmem
    simp [closePane, hmem]
  | split d r f sn =>
    rw [hroot] at hone
    simp only [getAllPaneIds, List.length_append] at hone
    have hf := getAllPaneIds_ne_nil f
    have hs := getAllPaneIds_ne_nil sn
    have hf1 : 0 < (getAllPaneIds f).length := List.length_pos.mpr hf
    have hs1 : 0 < (getAllPaneIds sn).length := List.length_pos.mpr hs
    omega

/-- `closeTab` refuses when only one tab exists. -/
theorem closeTab_single (s : LayoutState) (tid : Nat) (h : s.tabs.length ≤ 1) :
    closeTab s tid = s := by
  unfold closeTab
  rw [if_pos h]

theorem findIdx?_middle {α : Type} (p : α → Bool) (l₁ l₂ : List α) (t : α)
    (h1 : ∀ u ∈ l₁, p u = false) (ht : p t = true) :
    (l₁ ++ t :: l₂).findIdx? p = some l₁.length := by
  induction l₁ with
  | nil => simp [List.findIdx?_cons, ht]
  | cons a l ih =>
    have ha : p a = false := h1 a (List.mem_cons_self a l)
    rw [List.cons_append, List.findIdx?_cons, ha]
    simp only [Bool.false_eq_true, if_false, List.findIdx?_succ,
      ih (fun u hu => h1 u (List.mem_cons_of_mem a hu)), Option.map_some']
    rfl

/-- `closeTab` on the active tab at the head of the list: the next tab in
the list becomes active. -/
theorem closeTab_active_first (s : LayoutState) (t : Tab) (l₂ : List Tab)
    (htabs : s.tabs = t :: l₂) (hne : l₂ ≠ [])
    (hid : s.activeTabId = t.id) (h2 : ∀ u ∈ l₂, u.id ≠ t.id) :
    closeTab s t.id = { tabs := l₂, activeTabId := (l₂.headD t).id } := by
  have hlen : ¬ s.tabs.length ≤ 1 := by
    rw [htabs]
    have := List.length_pos.mpr hne
    simp only [List.length_cons]
    omega
  have hfind : s.tabs.findIdx? (fun u => u.id = t.id) = some 0 := by
    rw [htabs]
    have h0 := findIdx?_middle (fun (u : Tab) => decide (u.id = t.id)) [] l₂ t
      (by simp) (by simp)
    simpa using h0
  have hfilter : s.tabs.filter (fun u => u.id ≠ t.id) = l₂ := by
    rw [htabs, List.filter_cons]
    have hh : (decide (t.id ≠ t.id)) = false := by simp
    rw [hh, if_neg (by simp)]
    exact List.filter_eq_self.mpr (fun u hu => by simp [h2 u hu])
  have hget : s.tabs.get? (0 + 1) = some (l₂.headD t) := by
    rw [htabs]
    cases l₂ with
    | nil => exact absurd rfl hne
    | cons b bs => rfl
  unfold closeTab
  rw [if_neg hlen, hfind]
  dsimp only
  rw [hid, if_pos rfl, if_neg (by decide), hget]
  rw [hfilter]
  rfl

/-- `closeTab` on an active tab with at least one tab before it: the
previous tab in the list becomes active. -/
theorem closeTab_active_prev (s : LayoutState) (t : Tab) (l₁ l₂ : List Tab)
    (htabs : s.tabs = l₁ ++ t :: l₂) (hne : l₁ ≠ [])
    (hid : s.activeTabId = t.id)
    (h1 : ∀ u ∈ l₁, u.id ≠ t.id) (h2 : ∀ u ∈ l₂, u.id ≠ t.id) :
    closeTab s t.id = { tabs := l₁ ++ l₂, activeTabId := (l₁.getLastD t).id } := by
  have hl1 : 0 < l₁.length := List.length_pos.mpr hne
  have hlen : ¬ s.tabs.length ≤ 1 := by
    rw [htabs]
    simp only [List.length_append, List.length_cons]
    omega
  have hfind : s.tabs.findIdx? (fun u => u.id = t.id) = some l₁.length := by
    rw [htabs]
    exact findIdx?_middle (fun (u : Tab) => decide (u.id = t.id)) l₁ l₂ t
      (fun u hu => by simp [h1 u hu]) (by simp)
  have hfilter : s.tabs.filter (fun u => u.id ≠ t.id) = l₁ ++ l₂ := by
    rw [htabs, List.filter_append, List.filter_cons]
    have hh : (decide (t.id ≠ t.id)) = false := by simp
    rw [hh, if_neg (by simp)]
    rw [List.filter_eq_self.mpr (fun u hu => by simp [h1 u hu]),
      List.filter_eq_self.mpr (fun u hu => by simp [h2 u hu])]
  have hget : s.tabs.get? (l₁.length - 1) = some (l₁.getLastD t) := by
    rw [htabs, List.get?_append (by omega), ← List.getLast?_eq_get?,
      List.getLastD_eq_getLast?]
    cases hl : l₁.getLast? with
    | none =>
      rw [List.getLast?_eq_none_iff] at hl
      exact absurd hl hne
    | some x => rfl
  unfold closeTab
  rw [if_neg hlen, hfind]
  dsimp only
  rw [hid, if_pos rfl, if_pos hl1, hget]
  rw [hfilter]
  rfl

end Layout

section ClaimTheoremsLayout
open Layout

/-- **C9** — tab closing: `closeTab` on a single-tab layout returns the
state unchanged (the close is refused, the tab and its focused pane
stay); closing the active tab activates the previous tab in the list, or
the next tab when the closed tab was first; and `closeFocused` on an
active tab holding exactly one (focused) pane triggers that tab's
closure — which, on a single-tab layout, is itself refused, leaving the
state unchanged. -/
theorem c9_closeTab_closeFocused :
    (∀ (s : LayoutState) (tid : Nat), s.tabs.length = 1 → closeTab s tid = s) ∧
    (∀ (s : LayoutState) (t : Tab) (l₂ : List Tab),
      s.tabs = t :: l₂ → l₂ ≠ [] → s.activeTabId = t.id →
      (∀ u ∈ l₂, u.id ≠ t.id) →
      closeTab s t.id = { tabs := l₂, activeTabId := (l₂.headD t).id }) ∧
    (∀ (s : LayoutState) (t : Tab) (l₁ l₂ : List Tab),
      s.tabs = l₁ ++ t :: l₂ → l₁ ≠ [] → s.activeTabId = t.id →
      (∀ u ∈ l₁, u.id ≠ t.id) → (∀ u ∈ l₂, u.id ≠ t.id) →
      closeTab s t.id = { tabs := l₁ ++ l₂, activeTabId := (l₁.getLastD t).id }) ∧
    (∀ (s : LayoutState) (tab : Tab), getActiveTab s = some tab →
      (getAllPaneIds tab.root).length = 1 →
      tab.focusedPaneId ∈ getAllPaneIds tab.root →
      closeFocused s = closeTab s tab.id) ∧
    (∀ (s : LayoutState) (tab : Tab), getActiveTab s = some tab →
      s.tabs.length = 1 → (getAllPaneIds tab.root).length = 1 →
      tab.focusedPaneId ∈ getAllPaneIds tab.root →
      closeFocused s = s) := by
  refine ⟨?_, ?_, ?_, ?_, ?_⟩
  · intro s tid h
    exact closeTab_single s tid (by omega)
  · intro s t l₂ htabs hne hid h2
    exact closeTab_active_first s t l₂ htabs hne hid h2
  · intro s t l₁ l₂ htabs hne hid h1 h2
    exact closeTab_active_prev s t l₁ l₂ htabs hne hid h1 h2
  · intro s tab hact hone hmem
    exact closeFocused_single_pane s tab hact hone hmem
  · intro s tab hact hlen hone hmem
    rw [closeFocused_single_pane s tab hact hone hmem]
    exact closeTab_single s tab.id (by omega)

/-- Witness for `c9_closeTab_closeFocused` on concrete one- and two-tab
layouts. -/
theorem c9_closeTab_closeFocused_witness :
    ((⟨[⟨1, .pane 1 none, 1⟩], 1⟩ : LayoutState).tabs.length = 1 ∧
      closeTab ⟨[⟨1, .pane 1 none, 1⟩], 1⟩ 5 = ⟨[⟨1, .pane 1 none, 1⟩], 1⟩) ∧
    closeTab ⟨[⟨1, .pane 1 none, 1⟩, ⟨2, .pane 2 none, 2⟩], 1⟩ 1 =
      { tabs := [⟨2, .pane 2 none, 2⟩],
        activeTabId := (([⟨2, .pane 2 none, 2⟩] :
          List Tab).headD ⟨1, .pane 1 none, 1⟩).id } ∧
    closeTab ⟨[⟨1, .pane 1 none, 1⟩, ⟨2, .pane 2 none, 2⟩], 2⟩ 2 =
      { tabs := [⟨1, .pane 1 none, 1⟩] ++ [],
        activeTabId := (([⟨1, .pane 1 none, 1⟩] :
          List Tab).getLastD ⟨2, .pane 2 none, 2⟩).id } ∧
    closeFocused ⟨[⟨1, .pane 1 none, 1⟩, ⟨2, .pane 2 none, 2⟩], 1⟩ =
      closeTab ⟨[⟨1, .pane 1 none, 1⟩, ⟨2, .pane 2 none, 2⟩], 1⟩ 1 ∧
    closeFocused ⟨[⟨1, .pane 1 none, 1⟩], 1⟩ = ⟨[⟨1, .pane 1 none, 1⟩], 1⟩ :=
  ⟨⟨rfl, c9_closeTab_closeFocused.1 ⟨[⟨1, .pane 1 none, 1⟩], 1⟩ 5 rfl⟩,
   c9_closeTab_closeFocused.2.1 ⟨[⟨1, .pane 1 none, 1⟩, ⟨2, .pane 2 none, 2⟩], 1⟩
     ⟨1, .pane 1 none, 1⟩ [⟨2, .pane 2 none, 2⟩] rfl (by simp) rfl
     (by intro u hu; simp at hu; subst hu; simp),
   c9_closeTab_closeFocused.2.2.1 ⟨[⟨1, .pane 1 none, 1⟩, ⟨2, .pane 2 none, 2⟩], 2⟩
     ⟨2, .pane 2 none, 2⟩ [⟨1, .pane 1 none, 1⟩] [] rfl (by simp) rfl
     (by intro u hu; simp at hu; subst hu; simp) (by intro u hu; simp at hu),
   c9_closeTab_closeFocused.2.2.2.1 ⟨[⟨1, .pane 1 none, 1⟩, ⟨2, .pane 2 none, 2⟩], 1⟩
     ⟨1, .pane 1 none, 1⟩ rfl rfl (by simp [getAllPaneIds]),
   c9_closeTab_closeFocused.2.2.2.2 ⟨[⟨1, .pane 1 none, 1⟩], 1⟩
     ⟨1, .pane 1 none, 1⟩ rfl rfl rfl (by simp [getAllPaneIds])⟩

end ClaimTheoremsLayout

namespace Layout

theorem hasPane_iff_mem (t : LayoutNode) (pid : Nat) :
    hasPane t pid = true ↔ pid ∈ getAllPaneIds t := by
  induction t with
  | pane id pty =>
    by_cases h : id = pid
    · subst h
      simp [hasPane, findPaneInTree, getAllPaneIds]
    · simp [hasPane, findPaneInTree, getAllPaneIds, h, Ne.symm h]
  | split d r f s ihf ihs =>
    simp only [hasPane, findPaneInTree, getAllPaneIds, List.mem_append]
    rw [← ihf, ← ihs]
    simp only [hasPane]
    cases hf : findPaneInTree f pid <;> cases hs : findPaneInTree s pid <;> simp

theorem getLastD_mem {α : Type} (l : List α) (d : α) (h : l ≠ []) :
    l.getLastD d ∈ l := by
  rw [List.getLastD_eq_getLast?]
  cases hl : l.getLast? with
  | none => rw [List.getLast?_eq_none_iff] at hl; exact absurd hl h
  | some x =>
    simp only [Option.getD_some]
    exact List.mem_of_getLast?_eq_some hl

theorem headD_mem {α : Type} (l : List α) (d : α) (h : l ≠ []) : l.headD d ∈ l := by
  cases l with
  | nil => exact absurd rfl h
  | cons a as => simp [List.headD]

/-- One-step unfolding of `splitPane` at a split node. -/
theorem splitPane_split (sd : SplitDirection) (r : ℚ) (f s : LayoutNode)
    (pid : Nat) (d : SplitDirection) (c : Counters) :
    splitPane (.split sd r f s) pid d c =
      if refChanged f pid then
        (.split sd r (splitPane f pid d c).1 s, (splitPane f pid d c).2)
      else
        (.split sd r f (splitPane s pid d (splitPane f pid d c).2).1,
          (splitPane s pid d (splitPane f pid d c).2).2) := by
  rw [splitPane]

/-- A child the reference test reports unchanged is a pane with a
non-matching id, on which `splitPane` is the identity. -/
theorem refChanged_false_noop {f : LayoutNode} {pid : Nat}
    (h : refChanged f pid = false) (d : SplitDirection) (c : Counters) :
    splitPane f pid d c = (f, c) := by
  cases f with
  | pane id pty =>
    have hne : ¬ id = pid := by simpa [refChanged] using h
    simp [splitPane, hne]
  | split a b x y => simp [refChanged] at h

/-- `splitPane` when the scan misses the target: tree and counter are
returned unchanged (as values; the source rebuilds fresh objects). -/
theorem splitPane_noop (t : LayoutNode) (pid : Nat) (d : SplitDirection)
    (c : Counters) (h : splitTarget t pid = false) : splitPane t pid d c = (t, c) := by
  induction t generalizing c with
  | pane id pty =>
    have hne : ¬ id = pid := by simpa [splitTarget] using h
    simp [splitPane, hne]
  | split sd r f s ihf ihs =>
    simp only [splitTarget] at h
    by_cases hrc : refChanged f pid
    · rw [if_pos hrc] at h
      rw [splitPane_split, if_pos hrc, ihf c h]
    · rw [if_neg hrc] at h
      have hrcf : refChanged f pid = false := by
        rw [← Bool.not_eq_true]
        exact hrc
      rw [splitPane_split, if_neg hrc, refChanged_false_noop hrcf d c]
      dsimp only
      rw [ihs c h]

/-- `splitPane` when the scan reaches the target: the pre-order pane list
gains the fresh pane id right after the first occurrence of the target
along the scan, and the counter advances once. -/
theorem splitPane_effect (t : LayoutNode) (pid : Nat) (d : SplitDirection)
    (c : Counters) (h : splitTarget t pid = true) :
    ∃ l₁ l₂, getAllPaneIds t = l₁ ++ pid :: l₂ ∧
      getAllPaneIds (splitPane t pid d c).1 = l₁ ++ pid :: (c.pane + 1) :: l₂ ∧
      (splitPane t pid d c).2 = { c with pane := c.pane + 1 } := by
  induction t generalizing c with
  | pane id pty =>
    have hip : id = pid := by simpa [splitTarget] using h
    subst hip
    exact ⟨[], [], rfl, by simp [splitPane, createPaneId, getAllPaneIds],
      by simp [splitPane, createPaneId]⟩
  | split sd r f s ihf ihs =>
    simp only [splitTarget] at h
    by_cases hrc : refChanged f pid
    · rw [if_pos hrc] at h
      obtain ⟨l₁, l₂, he, he', hc⟩ := ihf c h
      refine ⟨l₁, l₂ ++ getAllPaneIds s, ?_, ?_, ?_⟩
      · simp [getAllPaneIds, he]
      · rw [splitPane_split, if_pos hrc]
        simp [getAllPaneIds, he']
      · rw [splitPane_split, if_pos hrc]
        simp [hc]
    · rw [if_neg hrc] at h
      have hrcf : refChanged f pid = false := by
        rw [← Bool.not_eq_true]
        exact hrc
      obtain ⟨l₁, l₂, he, he', hc⟩ := ihs c h
      refine ⟨getAllPaneIds f ++ l₁, l₂, ?_, ?_, ?_⟩
      · simp [getAllPaneIds, he]
      · rw [splitPane_split, if_neg hrc, refChanged_false_noop hrcf d c]
        dsimp only
        simp [getAllPaneIds, he']
      · rw [splitPane_split, if_neg hrc, refChanged_false_noop hrcf d c]
        dsimp only
        simp [hc]

/-- `closePane` removes exactly the panes carrying the target id from the
pre-order list (the empty result standing for a fully closed tree). -/
theorem closePane_ids (t : LayoutNode) (pid : Nat) :
    (closePane t pid).elim [] getAllPaneIds =
      (getAllPaneIds t).filter (fun x => x ≠ pid) := by
  induction t with
  | pane id pty =>
    by_cases h : id = pid
    · subst h
      simp [closePane, getAllPaneIds]
    · simp [closePane, getAllPaneIds, h]
  | split d r f s ihf ihs =>
    rw [closePane]
    cases hf : closePane f pid with
    | none =>
      rw [hf] at ihf
      simp only [Option.elim] at ihf
      cases hs : closePane s pid with
      | none =>
        rw [hs] at ihs
        simp only [Option.elim] at ihs
        dsimp only
        rw [getAllPaneIds, List.filter_append, ← ihf, ← ihs]
        rfl
      | some r2 =>
        rw [hs] at ihs
        simp only [Option.elim] at ihs
        dsimp only
        rw [getAllPaneIds, List.filter_append, ← ihf, List.nil_append]
        exact ihs
    | some r1 =>
      rw [hf] at ihf
      simp only [Option.elim] at ihf
      cases hs : closePane s pid with
      | none =>
        rw [hs] at ihs
        simp only [Option.elim] at ihs
        dsimp only
        rw [getAllPaneIds, List.filter_append, ← ihs, List.append_nil]
        exact ihf
      | some r2 =>
        rw [hs] at ihs
        simp only [Option.elim] at ihs
        dsimp only
        simp only [Option.elim, getAllPaneIds, List.filter_append]
        rw [ihf, ihs]

theorem closePane_some_ids {t : LayoutNode} {pid : Nat} {r : LayoutNode}
    (h : closePane t pid = some r) :
    getAllPaneIds r = (getAllPaneIds t).filter (fun x => x ≠ pid) := by
  have := closePane_ids t pid
  rw [h] at this
  exact this

theorem closePane_none_filter {t : LayoutNode} {pid : Nat}
    (h : closePane t pid = none) :
    (getAllPaneIds t).filter (fun x => x ≠ pid) = [] := by
  have := closePane_ids t pid
  rw [h] at this
  exact this.symm

/-- The user-reachable layout operations: splits and pane closes of the
focused pane, focus cycling, and the tab operations (`addTab`,
`cycleTab` as wired to next_tab/prev_tab, `closeTab`, `setActiveTab`,
`moveFocusToPane`). -/
inductive LOp
  | split (d : SplitDirection)
  | closeFocusedPane
  | focus (d : FocusDirection)
  | newTab
  | nextTab
  | prevTab
  | closeTabId (tid : Nat)
  | activateTab (tid : Nat)
  | focusPane (pid : Nat)

/-- One operation applied to the layout state and the id counters, exactly
as the source functions do. -/
def applyOp : LayoutState × Counters → LOp → LayoutState × Counters
  | (s, c), .split d => splitFocused s d c
  | (s, c), .closeFocusedPane => (closeFocused s, c)
  | (s, c), .focus d => (focusNext s d, c)
  | (s, c), .newTab => addTab s c
  | (s, c), .nextTab => (cycleTab s 1, c)
  | (s, c), .prevTab => (cycleTab s (-1), c)
  | (s, c), .closeTabId tid => (closeTab s tid, c)
  | (s, c), .activateTab tid => (setActiveTab s tid, c)
  | (s, c), .focusPane pid => (moveFocusToPane s pid, c)

/-- Ghost accounting of "net number of splits applied to a tab": a
function from tab id to effective-splits-minus-effective-closes.  A split
that takes effect (`splitTarget`: the reference-guided scan reaches the
focused pane) adds one for the active tab; a split the scan misses — the
focused pane sits in the second subtree beneath a split first child — is
silently dropped by the source and counted by nobody; a pane close that
removes a pane (without closing the tab) subtracts one; nothing else
changes the count. -/
def ghostStep (s : LayoutState) (g : Nat → Nat) : LOp → Nat → Nat
  | .split _ =>
    match getActiveTab s with
    | some tab =>
      if splitTarget tab.root tab.focusedPaneId then
        fun t => if t = tab.id then g t + 1 else g t
      else g
    | none => g
  | .closeFocusedPane =>
    match getActiveTab s with
    | some tab =>
      match closePane tab.root tab.focusedPaneId with
      | some _ => fun t => if t = tab.id then g t - 1 else g t
      | none => g
    | none => g
  | _ => g

/-- One step of the instrumented run. -/
def stepG (x : LayoutState × Counters × (Nat → Nat)) (op : LOp) :
    LayoutState × Counters × (Nat → Nat) :=
  let (s', c') := applyOp (x.1, x.2.1) op
  (s', c', ghostStep x.1 x.2.2 op)

/-- The instrumented run from the initial single-pane layout. -/
def runOps (ops : List LOp) : LayoutState × Counters × (Nat → Nat) :=
  ops.foldl stepG ((initLayout ⟨0, 0⟩).1, (initLayout ⟨0, 0⟩).2, fun _ => 0)

/-- All pane ids of the layout, across tabs. -/
def panesOf (s : LayoutState) : List Nat :=
  s.tabs.flatMap (fun t => getAllPaneIds t.root)

/-- The inductive invariant of the instrumented run: the spec's global
invariant (non-empty tab list, active tab resolves, every tab's focused
pane resolves in its own tree) strengthened with the freshness facts the
id counters maintain (tab and pane ids are duplicate-free and bounded by
their counters) and the ghost pane-count accounting (every tab holds
exactly `1 + net splits` panes; ids beyond the tab counter have no
splits recorded). -/
def Inv (s : LayoutState) (c : Counters) (g : Nat → Nat) : Prop :=
  s.tabs ≠ [] ∧
  (∃ tab ∈ s.tabs, tab.id = s.activeTabId) ∧
  (∀ tab ∈ s.tabs, tab.focusedPaneId ∈ getAllPaneIds tab.root) ∧
  (s.tabs.map Tab.id).Nodup ∧
  (∀ tab ∈ s.tabs, tab.id ≤ c.tab) ∧
  (panesOf s).Nodup ∧
  (∀ pid ∈ panesOf s, pid ≤ c.pane) ∧
  (∀ tab ∈ s.tabs, (getAllPaneIds tab.root).length = 1 + g tab.id) ∧
  (∀ tid, c.tab < tid → g tid = 0)

/-- Under `Inv`, the invariant checker reports no violation. -/
theorem validate_of_inv {s : LayoutState} {c : Counters} {g : Nat → Nat}
    (h : Inv s c g) : validateLayoutState s = [] := by
  obtain ⟨h1, ⟨tab, htab, hid⟩, h3, -, -, -, -, -, -⟩ := h
  unfold validateLayoutState
  have e1 : s.tabs.length ≠ 0 := by
    have := List.length_pos.mpr h1
    omega
  rw [if_neg e1]
  have e2 : (s.tabs.find? (fun t => t.id = s.activeTabId)).isSome = true := by
    rw [List.find?_isSome]
    exact ⟨tab, htab, by simp [hid]⟩
  rw [if_pos e2]
  simp only [List.nil_append, List.flatMap_eq_nil_iff]
  intro t ht
  have hf : hasPane t.root t.focusedPaneId = true :=
    (hasPane_iff_mem _ _).mpr (h3 t ht)
  rw [if_pos hf]
  have hp : ¬ (getAllPaneIds t.root).length = 0 := by
    have := List.length_pos.mpr (getAllPaneIds_ne_nil t.root)
    omega
  rw [if_neg hp]
  rfl

/-- Under a duplicate-free tab-id list, `getActiveTab` finds exactly the
member tab carrying the active id. -/
theorem find?_id_unique {l : List Tab} {tab : Tab} {act : Nat}
    (hnd : (l.map Tab.id).Nodup) (htab : tab ∈ l) (hid : tab.id = act) :
    l.find? (fun t => t.id = act) = some tab := by
  induction l with
  | nil => cases htab
  | cons a rest ih =>
    rw [List.find?_cons]
    by_cases ha : a.id = act
    · have heq : tab = a := by
        rcases List.mem_cons.mp htab with h | h
        · exact h
        · exfalso
          have hmem : a.id ∈ rest.map Tab.id := by
            have : a.id = tab.id := by rw [ha, hid]
            rw [this]
            exact List.mem_map_of_mem Tab.id h
          simp only [List.map_cons, List.nodup_cons] at hnd
          exact hnd.1 hmem
      subst heq
      simp [ha]
    · have hd : (decide (a.id = act)) = false := by simp [ha]
      rw [hd]
      have htab' : tab ∈ rest := by
        rcases List.mem_cons.mp htab with h | h
        · subst h; exact absurd hid ha
        · exact h
      simp only [List.map_cons, List.nodup_cons] at hnd
      exact ih hnd.2 htab'

theorem getActiveTab_eq {s : LayoutState} {tab : Tab}
    (hnd : (s.tabs.map Tab.id).Nodup) (htab : tab ∈ s.tabs)
    (hid : tab.id = s.activeTabId) : getActiveTab s = some tab :=
  find?_id_unique hnd htab hid

/-- Under `Inv`, the active tab sits at a unique position in the list. -/
theorem active_decomp {s : LayoutState} {c : Counters} {g : Nat → Nat}
    (h : Inv s c g) :
    ∃ (tab : Tab) (u₁ u₂ : List Tab), s.tabs = u₁ ++ tab :: u₂ ∧
      tab.id = s.activeTabId ∧ getActiveTab s = some tab ∧
      (∀ u ∈ u₁, u.id ≠ tab.id) ∧ (∀ u ∈ u₂, u.id ≠ tab.id) := by
  obtain ⟨-, ⟨tab, htab, hid⟩, -, hnd, -, -, -, -, -⟩ := h
  obtain ⟨u₁, u₂, he⟩ := List.append_of_mem htab
  refine ⟨tab, u₁, u₂, he, hid, getActiveTab_eq hnd htab hid, ?_, ?_⟩
  · intro u hu hueq
    rw [he, List.map_append, List.map_cons] at hnd
    rcases List.nodup_append.mp hnd with ⟨-, -, hdisj⟩
    exact hdisj (List.mem_map_of_mem Tab.id hu) (by rw [hueq]; exact List.mem_cons_self _ _)
  · intro u hu hueq
    rw [he, List.map_append, List.map_cons] at hnd
    rcases List.nodup_append.mp hnd with ⟨-, hcons, -⟩
    rw [List.nodup_cons] at hcons
    exact hcons.1 (by rw [← hueq]; exact List.mem_map_of_mem Tab.id hu)

/-- Mapping a replace-by-id function over tabs free of that id is the
identity. -/
theorem map_update_id (l : List Tab) (tid : Nat) (newTab : Tab)
    (h : ∀ u ∈ l, u.id ≠ tid) :
    l.map (fun t => if t.id = tid then newTab else t) = l := by
  induction l with
  | nil => rfl
  | cons a rest ih =>
    rw [List.map_cons, if_neg (h a (List.mem_cons_self a rest)),
      ih (fun u hu => h u (List.mem_cons_of_mem a hu))]

/-- `updateTab` at the unique position of the target id. -/
theorem updateTab_decomp {u₁ u₂ : List Tab} {tab : Tab} {act : Nat} (newTab : Tab)
    (h1 : ∀ u ∈ u₁, u.id ≠ tab.id) (h2 : ∀ u ∈ u₂, u.id ≠ tab.id) :
    updateTab ⟨u₁ ++ tab :: u₂, act⟩ tab.id newTab = ⟨u₁ ++ newTab :: u₂, act⟩ := by
  unfold updateTab
  simp only [List.map_append, List.map_cons, if_pos, map_update_id u₁ tab.id newTab h1,
    map_update_id u₂ tab.id newTab h2]

theorem panesOf_decomp (u₁ u₂ : List Tab) (t : Tab) (act : Nat) :
    panesOf ⟨u₁ ++ t :: u₂, act⟩ =
      panesOf ⟨u₁, act⟩ ++ getAllPaneIds t.root ++ panesOf ⟨u₂, act⟩ := by
  simp [panesOf, List.flatMap_append, List.flatMap_cons, List.append_assoc]

/-- `Inv` transfers along a change of `activeTabId` alone, provided the
new active id resolves. -/
theorem inv_of_active {s s' : LayoutState} {c : Counters} {g : Nat → Nat}
    (htabs : s'.tabs = s.tabs)
    (hact : ∃ tab ∈ s'.tabs, tab.id = s'.activeTabId) (h : Inv s c g) :
    Inv s' c g := by
  obtain ⟨h1, _, h3, h4, h5, h6, h7, h8, h9⟩ := h
  have hp : panesOf s' = panesOf s := by simp [panesOf, htabs]
  exact ⟨by rw [htabs]; exact h1, hact, by rw [htabs]; exact h3,
    by rw [htabs]; exact h4, by rw [htabs]; exact h5, by rw [hp]; exact h6,
    by rw [hp]; exact h7, by rw [htabs]; exact h8, h9⟩

/-- `setActiveTab` preserves the invariant. -/
theorem inv_setActiveTab {s : LayoutState} {c : Counters} {g : Nat → Nat}
    (tid : Nat) (h : Inv s c g) : Inv (setActiveTab s tid) c g := by
  unfold setActiveTab
  split_ifs with hf
  · rcases List.find?_isSome.mp hf with ⟨x, hx, hpx⟩
    simp only [decide_eq_true_eq] at hpx
    exact inv_of_active (s := s) rfl ⟨x, hx, hpx⟩ h
  · exact h

/-- `cycleTab` preserves the invariant. -/
theorem inv_cycleTab {s : LayoutState} {c : Counters} {g : Nat → Nat}
    (delta : Int) (h : Inv s c g) : Inv (cycleTab s delta) c g := by
  unfold cycleTab
  split_ifs with hlen
  · exact h
  · cases hidx : s.tabs.findIdx? (fun t => t.id = s.activeTabId) with
    | none => exact h
    | some idx => exact inv_setActiveTab _ h

/-- The pane ids of a list of tabs, in order. -/
def tabPanes (l : List Tab) : List Nat :=
  l.flatMap (fun t => getAllPaneIds t.root)

theorem panesOf_eq {s : LayoutState} {u₁ u₂ : List Tab} {tab : Tab}
    (he : s.tabs = u₁ ++ tab :: u₂) :
    panesOf s = tabPanes u₁ ++ (getAllPaneIds tab.root ++ tabPanes u₂) := by
  show tabPanes s.tabs = _
  rw [he]
  simp [tabPanes, List.flatMap_append, List.flatMap_cons]

/-- Any member of a duplicate-id-free tab list sits at a unique position. -/
theorem mem_decomp {l : List Tab} {t : Tab}
    (hnd : (l.map Tab.id).Nodup) (htab : t ∈ l) :
    ∃ u₁ u₂, l = u₁ ++ t :: u₂ ∧
      (∀ u ∈ u₁, u.id ≠ t.id) ∧ (∀ u ∈ u₂, u.id ≠ t.id) := by
  obtain ⟨u₁, u₂, he⟩ := List.append_of_mem htab
  refine ⟨u₁, u₂, he, ?_, ?_⟩
  · intro u hu hueq
    rw [he, List.map_append, List.map_cons] at hnd
    rcases List.nodup_append.mp hnd with ⟨-, -, hdisj⟩
    exact hdisj (List.mem_map_of_mem Tab.id hu) (by rw [hueq]; exact List.mem_cons_self _ _)
  · intro u hu hueq
    rw [he, List.map_append, List.map_cons] at hnd
    rcases List.nodup_append.mp hnd with ⟨-, hcons, -⟩
    rw [List.nodup_cons] at hcons
    exact hcons.1 (by rw [← hueq]; exact List.mem_map_of_mem Tab.id hu)

/-- Inserting a fresh element in the middle of a duplicate-free list keeps
it duplicate-free. -/
theorem nodup_insert_middle {A l₁ l₂ B : List Nat} {pid x : Nat}
    (hnd : (A ++ ((l₁ ++ pid :: l₂) ++ B)).Nodup)
    (hx : x ∉ A ++ ((l₁ ++ pid :: l₂) ++ B)) :
    (A ++ ((l₁ ++ pid :: x :: l₂) ++ B)).Nodup := by
  have he1 : A ++ ((l₁ ++ pid :: x :: l₂) ++ B) = (A ++ l₁ ++ [pid]) ++ x :: (l₂ ++ B) := by
    simp [List.append_assoc]
  have he2 : A ++ ((l₁ ++ pid :: l₂) ++ B) = (A ++ l₁ ++ [pid]) ++ (l₂ ++ B) := by
    simp [List.append_assoc]
  rw [he2] at hnd hx
  rw [he1]
  exact (List.Perm.nodup_iff List.perm_middle).mpr (List.nodup_cons.mpr ⟨hx, hnd⟩)

/-- Filtering one occurrence out of a duplicate-free list shortens it by
exactly one. -/
theorem length_filter_nodup {l : List Nat} {pid : Nat}
    (hnd : l.Nodup) (hm : pid ∈ l) :
    (l.filter (fun x => x ≠ pid)).length + 1 = l.length := by
  induction l with
  | nil => cases hm
  | cons a rest ih =>
    rw [List.nodup_cons] at hnd
    rw [List.filter_cons]
    by_cases ha : a = pid
    · subst ha
      rw [if_neg (by simp)]
      have hfa : rest.filter (fun x => x ≠ a) = rest :=
        List.filter_eq_self.mpr (fun u hu => by
          have hua : u ≠ a := fun hc => hnd.1 (hc ▸ hu)
          simp [hua])
      rw [hfa, List.length_cons]
    · rw [if_pos (by simp [ha])]
      have hm' : pid ∈ rest := by
        rcases List.mem_cons.mp hm with h | h
        · exact absurd h.symm ha
        · exact h
      rw [List.length_cons, List.length_cons, ← ih hnd.2 hm']

/-- The workhorse: replacing the active tab by a new tab with the same id
preserves the invariant, provided the new tab is self-consistent (focused
pane present, duplicate-free and counter-bounded pane ids, ghost-counted
pane total) and the counters only grow. -/
theorem inv_update_active {s : LayoutState} {c c' : Counters} {g g' : Nat → Nat}
    {tab newTab : Tab} {u₁ u₂ : List Tab}
    (h : Inv s c g)
    (he : s.tabs = u₁ ++ tab :: u₂)
    (hid : tab.id = s.activeTabId)
    (h1 : ∀ u ∈ u₁, u.id ≠ tab.id) (h2 : ∀ u ∈ u₂, u.id ≠ tab.id)
    (hnid : newTab.id = tab.id)
    (hfoc : newTab.focusedPaneId ∈ getAllPaneIds newTab.root)
    (hct : c.tab ≤ c'.tab) (hcp : c.pane ≤ c'.pane)
    (hnodup : (tabPanes u₁ ++ (getAllPaneIds newTab.root ++ tabPanes u₂)).Nodup)
    (hbound : ∀ pid ∈ getAllPaneIds newTab.root, pid ≤ c'.pane)
    (hcount : (getAllPaneIds newTab.root).length = 1 + g' tab.id)
    (hg : ∀ t, t ≠ tab.id → g' t = g t) :
    Inv (updateTab s tab.id newTab) c' g' := by
  obtain ⟨-, -, h3, h4, h5, h6, h7, h8, h9⟩ := h
  have htabm : tab ∈ s.tabs := by
    rw [he]; exact List.mem_append_right _ (List.mem_cons_self _ _)
  have htabs' : (updateTab s tab.id newTab).tabs = u₁ ++ newTab :: u₂ := by
    show s.tabs.map _ = _
    have hif : (if tab.id = tab.id then newTab else tab) = newTab := if_pos rfl
    rw [he, List.map_append, List.map_cons, hif,
      map_update_id u₁ tab.id newTab h1, map_update_id u₂ tab.id newTab h2]
  have hmem1 : ∀ u ∈ u₁, u ∈ s.tabs := by
    intro u hu; rw [he]; exact List.mem_append_left _ hu
  have hmem2 : ∀ u ∈ u₂, u ∈ s.tabs := by
    intro u hu; rw [he]; exact List.mem_append_right _ (List.mem_cons_of_mem _ hu)
  have hpanes' : panesOf (updateTab s tab.id newTab) =
      tabPanes u₁ ++ (getAllPaneIds newTab.root ++ tabPanes u₂) := by
    show tabPanes (updateTab s tab.id newTab).tabs = _
    rw [htabs']
    simp [tabPanes, List.flatMap_append, List.flatMap_cons]
  have hpanesold := panesOf_eq he
  refine ⟨?_, ?_, ?_, ?_, ?_, ?_, ?_, ?_, ?_⟩
  · rw [htabs']
    simp
  · refine ⟨newTab, ?_, ?_⟩
    · rw [htabs']
      exact List.mem_append_right _ (List.mem_cons_self _ _)
    · show newTab.id = s.activeTabId
      rw [hnid, hid]
  · intro t ht
    rw [htabs'] at ht
    rcases List.mem_append.mp ht with hu | hu
    · exact h3 t (hmem1 t hu)
    · rcases List.mem_cons.mp hu with hu | hu
      · subst hu; exact hfoc
      · exact h3 t (hmem2 t hu)
  · rw [htabs', List.map_append, List.map_cons, hnid]
    rw [he, List.map_append, List.map_cons] at h4
    exact h4
  · intro t ht
    rw [htabs'] at ht
    rcases List.mem_append.mp ht with hu | hu
    · exact le_trans (h5 t (hmem1 t hu)) hct
    · rcases List.mem_cons.mp hu with hu | hu
      · subst hu
        rw [hnid]
        exact le_trans (h5 tab htabm) hct
      · exact le_trans (h5 t (hmem2 t hu)) hct
  · rw [hpanes']
    exact hnodup
  · intro pid hpid
    rw [hpanes'] at hpid
    rcases List.mem_append.mp hpid with hu | hu
    · refine le_trans (h7 pid ?_) hcp
      rw [hpanesold]
      exact List.mem_append_left _ hu
    · rcases List.mem_append.mp hu with hu | hu
      · exact hbound pid hu
      · refine le_trans (h7 pid ?_) hcp
        rw [hpanesold]
        exact List.mem_append_right _ (List.mem_append_right _ hu)
  · intro t ht
    rw [htabs'] at ht
    rcases List.mem_append.mp ht with hu | hu
    · rw [hg t.id (h1 t hu)]
      exact h8 t (hmem1 t hu)
    · rcases List.mem_cons.mp hu with hu | hu
      · subst hu
        rw [hnid]
        exact hcount
      · rw [hg t.id (h2 t hu)]
        exact h8 t (hmem2 t hu)
  · intro tid htid
    have hne : tid ≠ tab.id := by
      have := h5 tab htabm
      omega
    rw [hg tid hne]
    exact h9 tid (lt_of_le_of_lt hct htid)

/-- `moveFocusToPane` preserves the invariant. -/
theorem inv_moveFocusToPane {s : LayoutState} {c : Counters} {g : Nat → Nat}
    (pid : Nat) (h : Inv s c g) : Inv (moveFocusToPane s pid) c g := by
  obtain ⟨tab, u₁, u₂, he, hid, hga, h1, h2⟩ := active_decomp h
  have htabm : tab ∈ s.tabs := by
    rw [he]; exact List.mem_append_right _ (List.mem_cons_self _ _)
  unfold moveFocusToPane
  rw [hga]
  dsimp only
  by_cases hp : hasPane tab.root pid
  · rw [if_pos hp]
    have hpm : pid ∈ getAllPaneIds tab.root := (hasPane_iff_mem _ _).mp hp
    refine inv_update_active h he hid h1 h2 rfl hpm le_rfl le_rfl ?_ ?_ ?_ ?_
    · have h6 := h.2.2.2.2.2.1
      rw [panesOf_eq he] at h6
      exact h6
    · intro q hq
      apply h.2.2.2.2.2.2.1
      rw [panesOf_eq he]
      exact List.mem_append_right _ (List.mem_append_left _ hq)
    · exact h.2.2.2.2.2.2.2.1 tab htabm
    · intro t ht
      rfl
  · rw [if_neg hp]
    exact h

/-- `focusNext` preserves the invariant. -/
theorem inv_focusNext {s : LayoutState} {c : Counters} {g : Nat → Nat}
    (d : FocusDirection) (h : Inv s c g) : Inv (focusNext s d) c g := by
  unfold focusNext
  cases hga : getActiveTab s with
  | none => exact h
  | some tab =>
    dsimp only
    cases hidx : (getAllPaneIds tab.root).indexOf? tab.focusedPaneId with
    | none => exact h
    | some currentIndex =>
      dsimp only
      by_cases hlen : (getAllPaneIds tab.root).length ≤ 1
      · rw [if_pos hlen]
        exact h
      · rw [if_neg hlen]
        exact inv_moveFocusToPane _ h

/-- `splitFocused` preserves the invariant: when the reference-guided scan
reaches the focused pane the ghost count of the active tab advances by
one; when the source silently drops the split, state and ghost are
unchanged except for the (idempotent) re-focus of the last pre-order
pane. -/
theorem inv_splitFocused {s : LayoutState} {c : Counters} {g : Nat → Nat}
    (d : SplitDirection) (h : Inv s c g) :
    Inv (splitFocused s d c).1 (splitFocused s d c).2 (ghostStep s g (.split d)) := by
  obtain ⟨tab, u₁, u₂, he, hid, hga, h1, h2⟩ := active_decomp h
  have htabm : tab ∈ s.tabs := by
    rw [he]; exact List.mem_append_right _ (List.mem_cons_self _ _)
  unfold splitFocused
  rw [hga]
  dsimp only
  by_cases hT : splitTarget tab.root tab.focusedPaneId = true
  · have hgeq : ghostStep s g (.split d) = fun t => if t = tab.id then g t + 1 else g t := by
      unfold ghostStep
      rw [hga]
      dsimp only
      rw [if_pos hT]
    obtain ⟨l₁, l₂, hids, hids', hc2⟩ :=
      splitPane_effect tab.root tab.focusedPaneId d c hT
    cases hsp : splitPane tab.root tab.focusedPaneId d c with
    | mk nr c2 =>
      rw [hsp] at hids' hc2
      dsimp only at hids' hc2
      subst hc2
      dsimp only
      rw [hgeq]
      have hfresh : c.pane + 1 ∉ panesOf s := by
        intro hmem
        have := h.2.2.2.2.2.2.1 _ hmem
        omega
      refine inv_update_active h he hid h1 h2 rfl
        (getLastD_mem _ 0 (getAllPaneIds_ne_nil nr)) le_rfl (Nat.le_succ _) ?_ ?_ ?_ ?_
      · show (tabPanes u₁ ++ (getAllPaneIds nr ++ tabPanes u₂)).Nodup
        rw [hids']
        have h6 := h.2.2.2.2.2.1
        rw [panesOf_eq he, hids] at h6
        rw [panesOf_eq he, hids] at hfresh
        exact nodup_insert_middle h6 hfresh
      · intro q hq
        show q ≤ c.pane + 1
        rw [show getAllPaneIds (⟨tab.id, nr, (getAllPaneIds nr).getLastD 0⟩ : Tab).root =
          getAllPaneIds nr from rfl, hids'] at hq
        have hcases : q = c.pane + 1 ∨ q ∈ getAllPaneIds tab.root := by
          rw [hids]
          simp only [List.mem_append, List.mem_cons] at hq ⊢
          tauto
        rcases hcases with hq1 | hq2
        · omega
        · have := h.2.2.2.2.2.2.1 q (by
            rw [panesOf_eq he]
            exact List.mem_append_right _ (List.mem_append_left _ hq2))
          omega
      · show (getAllPaneIds nr).length = 1 + (if tab.id = tab.id then g tab.id + 1 else g tab.id)
        rw [if_pos rfl]
        have h8 := h.2.2.2.2.2.2.2.1 tab htabm
        rw [hids] at h8
        rw [hids']
        simp only [List.length_append, List.length_cons] at h8 ⊢
        omega
      · intro t ht
        exact if_neg ht
  · have hTf : splitTarget tab.root tab.focusedPaneId = false := by
      rw [← Bool.not_eq_true]
      exact hT
    have hgeq : ghostStep s g (.split d) = g := by
      unfold ghostStep
      rw [hga]
      dsimp only
      rw [if_neg hT]
    rw [splitPane_noop tab.root tab.focusedPaneId d c hTf]
    dsimp only
    rw [hgeq]
    refine inv_update_active h he hid h1 h2 rfl
      (getLastD_mem _ 0 (getAllPaneIds_ne_nil tab.root)) le_rfl le_rfl ?_ ?_ ?_ ?_
    · have h6 := h.2.2.2.2.2.1
      rw [panesOf_eq he] at h6
      exact h6
    · intro q hq
      apply h.2.2.2.2.2.2.1 q
      rw [panesOf_eq he]
      exact List.mem_append_right _ (List.mem_append_left _ hq)
    · exact h.2.2.2.2.2.2.2.1 tab htabm
    · intro t ht
      rfl

/-- `closeTab` on a present but non-active tab: the tab is removed and the
active id kept. -/
theorem closeTab_nonactive (s : LayoutState) (t : Tab) (l₁ l₂ : List Tab)
    (htabs : s.tabs = l₁ ++ t :: l₂) (hlen : ¬ s.tabs.length ≤ 1)
    (hid : s.activeTabId ≠ t.id)
    (h1 : ∀ u ∈ l₁, u.id ≠ t.id) (h2 : ∀ u ∈ l₂, u.id ≠ t.id) :
    closeTab s t.id = { tabs := l₁ ++ l₂, activeTabId := s.activeTabId } := by
  have hfind : s.tabs.findIdx? (fun u => u.id = t.id) = some l₁.length := by
    rw [htabs]
    exact findIdx?_middle (fun (u : Tab) => decide (u.id = t.id)) l₁ l₂ t
      (fun u hu => by simp [h1 u hu]) (by simp)
  have hfilter : s.tabs.filter (fun u => u.id ≠ t.id) = l₁ ++ l₂ := by
    rw [htabs, List.filter_append, List.filter_cons]
    have hh : (decide (t.id ≠ t.id)) = false := by simp
    rw [hh, if_neg (by simp)]
    rw [List.filter_eq_self.mpr (fun u hu => by simp [h1 u hu]),
      List.filter_eq_self.mpr (fun u hu => by simp [h2 u hu])]
  unfold closeTab
  rw [if_neg hlen, hfind]
  dsimp only
  rw [if_neg hid, hfilter]

/-- Dropping one tab from the list preserves the invariant, provided the
chosen active id still resolves. -/
theorem inv_remove {s : LayoutState} {c : Counters} {g : Nat → Nat}
    {t : Tab} {u₁ u₂ : List Tab} {act' : Nat}
    (h : Inv s c g) (he : s.tabs = u₁ ++ t :: u₂)
    (hact : ∃ tb ∈ u₁ ++ u₂, tb.id = act') :
    Inv ⟨u₁ ++ u₂, act'⟩ c g := by
  obtain ⟨-, -, h3, h4, h5, h6, h7, h8, h9⟩ := h
  have hsub : (u₁ ++ u₂).Sublist s.tabs := by
    rw [he]
    exact (List.sublist_cons_self t u₂).append_left u₁
  have hsubm : ∀ u ∈ u₁ ++ u₂, u ∈ s.tabs := fun u hu => hsub.subset hu
  have hpsub : (panesOf ⟨u₁ ++ u₂, act'⟩).Sublist (panesOf s) := by
    rw [panesOf_eq he]
    show (tabPanes (u₁ ++ u₂)).Sublist _
    have hsplit : tabPanes (u₁ ++ u₂) = tabPanes u₁ ++ tabPanes u₂ := by
      simp [tabPanes, List.flatMap_append]
    rw [hsplit]
    exact (List.sublist_append_right (getAllPaneIds t.root) (tabPanes u₂)).append_left
      (tabPanes u₁)
  obtain ⟨tb, htb, htbid⟩ := hact
  refine ⟨List.ne_nil_of_mem htb, ⟨tb, htb, htbid⟩, ?_, ?_, ?_, hpsub.nodup h6, ?_, ?_, h9⟩
  · intro u hu
    exact h3 u (hsubm u hu)
  · exact ((hsub.map Tab.id).nodup h4)
  · intro u hu
    exact h5 u (hsubm u hu)
  · intro pid hpid
    exact h7 pid (hpsub.subset hpid)
  · intro u hu
    exact h8 u (hsubm u hu)

/-- `closeTab` preserves the invariant (the ghost is untouched: the pane
count of every surviving tab is unchanged). -/
theorem inv_closeTab {s : LayoutState} {c : Counters} {g : Nat → Nat}
    (tid : Nat) (h : Inv s c g) : Inv (closeTab s tid) c g := by
  by_cases hlen : s.tabs.length ≤ 1
  · rw [closeTab_single s tid hlen]
    exact h
  by_cases hex : ∃ t ∈ s.tabs, t.id = tid
  · obtain ⟨t, htm, hti⟩ := hex
    subst hti
    obtain ⟨u₁, u₂, he, h1, h2⟩ := mem_decomp h.2.2.2.1 htm
    by_cases hact : s.activeTabId = t.id
    · cases hu1 : u₁ with
      | nil =>
        subst hu1
        have hne2 : u₂ ≠ [] := by
          intro h0
          rw [h0] at he
          rw [he] at hlen
          simp at hlen
        rw [closeTab_active_first s t u₂ he hne2 hact h2]
        exact inv_remove h he ⟨u₂.headD t, headD_mem u₂ t hne2, rfl⟩
      | cons a u₁x =>
        have hne1 : u₁ ≠ [] := by rw [hu1]; simp
        rw [closeTab_active_prev s t u₁ u₂ he hne1 hact h1 h2]
        exact inv_remove h he
          ⟨u₁.getLastD t, List.mem_append_left _ (getLastD_mem u₁ t hne1), rfl⟩
    · rw [closeTab_nonactive s t u₁ u₂ he hlen hact h1 h2]
      obtain ⟨tb, htb, htbid⟩ := h.2.1
      refine inv_remove h he ⟨tb, ?_, htbid⟩
      rw [he] at htb
      rcases List.mem_append.mp htb with hm | hm
      · exact List.mem_append_left _ hm
      · rcases List.mem_cons.mp hm with hm | hm
        · exfalso
          rw [hm] at htbid
          exact hact htbid.symm
        · exact List.mem_append_right _ hm
  · have hfind : s.tabs.findIdx? (fun t => t.id = tid) = none := by
      rw [List.findIdx?_eq_none_iff]
      intro x hx
      have hne : ¬ (x.id = tid) := fun hc => hex ⟨x, hx, hc⟩
      simp [hne]
    unfold closeTab
    rw [if_neg hlen, hfind]
    exact h

/-- `closeFocused` preserves the invariant, with the ghost count of the
active tab decreased by one when a pane was actually removed. -/
theorem inv_closeFocused {s : LayoutState} {c : Counters} {g : Nat → Nat}
    (h : Inv s c g) :
    Inv (closeFocused s) c (ghostStep s g .closeFocusedPane) := by
  obtain ⟨tab, u₁, u₂, he, hid, hga, h1, h2⟩ := active_decomp h
  have htabm : tab ∈ s.tabs := by
    rw [he]; exact List.mem_append_right _ (List.mem_cons_self _ _)
  have hfo : tab.focusedPaneId ∈ getAllPaneIds tab.root := h.2.2.1 tab htabm
  unfold closeFocused
  rw [hga]
  dsimp only
  cases hclose : closePane tab.root tab.focusedPaneId with
  | none =>
    have hg : ghostStep s g .closeFocusedPane = g := by
      unfold ghostStep
      rw [hga]
      dsimp only
      rw [hclose]
    rw [hg]
    exact inv_closeTab tab.id h
  | some nr =>
    have hg : ghostStep s g .closeFocusedPane =
        fun t => if t = tab.id then g t - 1 else g t := by
      unfold ghostStep
      rw [hga]
      dsimp only
      rw [hclose]
    rw [hg]
    dsimp only
    have hids : getAllPaneIds nr =
        (getAllPaneIds tab.root).filter (fun x => x ≠ tab.focusedPaneId) :=
      closePane_some_ids hclose
    have hne : getAllPaneIds nr ≠ [] := getAllPaneIds_ne_nil nr
    have hlen0 : 0 < (getAllPaneIds nr).length := List.length_pos.mpr hne
    rw [if_pos hlen0]
    have h8tab := h.2.2.2.2.2.2.2.1 tab htabm
    have hndroot : (getAllPaneIds tab.root).Nodup := by
      have h6 := h.2.2.2.2.2.1
      rw [panesOf_eq he] at h6
      exact (List.nodup_append.mp (List.nodup_append.mp h6).2.1).1
    have hflen : (getAllPaneIds nr).length + 1 = (getAllPaneIds tab.root).length := by
      rw [hids]
      exact length_filter_nodup hndroot hfo
    have hsubM : (getAllPaneIds nr).Sublist (getAllPaneIds tab.root) := by
      rw [hids]
      exact List.filter_sublist _
    refine inv_update_active h he hid h1 h2 rfl (headD_mem _ _ hne) le_rfl le_rfl ?_ ?_ ?_ ?_
    · show (tabPanes u₁ ++ (getAllPaneIds nr ++ tabPanes u₂)).Nodup
      have h6 := h.2.2.2.2.2.1
      rw [panesOf_eq he] at h6
      exact (((hsubM.append_right (tabPanes u₂)).append_left (tabPanes u₁))).nodup h6
    · intro q hq
      apply h.2.2.2.2.2.2.1 q
      rw [panesOf_eq he]
      exact List.mem_append_right _ (List.mem_append_left _ (hsubM.subset hq))
    · show (getAllPaneIds nr).length =
        1 + (if tab.id = tab.id then g tab.id - 1 else g tab.id)
      rw [if_pos rfl]
      omega
    · intro t ht
      exact if_neg ht

/-- `addTab` computed: a fresh single-pane tab appended and activated,
both counters advanced. -/
theorem addTab_eq (s : LayoutState) (c : Counters) :
    addTab s c = ({ tabs := s.tabs ++ [⟨c.tab + 1, .pane (c.pane + 1) none, c.pane + 1⟩],
                    activeTabId := c.tab + 1 }, ⟨c.pane + 1, c.tab + 1⟩) := rfl

/-- `addTab` preserves the invariant; the fresh tab's ghost count is zero
by the freshness conjunct. -/
theorem inv_addTab {s : LayoutState} {c : Counters} {g : Nat → Nat}
    (h : Inv s c g) : Inv (addTab s c).1 (addTab s c).2 g := by
  obtain ⟨hx1, hx2, h3, h4, h5, h6, h7, h8, h9⟩ := h
  rw [addTab_eq]
  dsimp only
  have hpanes : panesOf ⟨s.tabs ++ [⟨c.tab + 1, .pane (c.pane + 1) none, c.pane + 1⟩],
      c.tab + 1⟩ = panesOf s ++ [c.pane + 1] := by
    show tabPanes _ = _
    simp [tabPanes, List.flatMap_append, getAllPaneIds, panesOf]
  refine ⟨?_, ?_, ?_, ?_, ?_, ?_, ?_, ?_, ?_⟩
  · simp
  · exact ⟨⟨c.tab + 1, .pane (c.pane + 1) none, c.pane + 1⟩,
      List.mem_append_right _ (List.mem_singleton.mpr rfl), rfl⟩
  · intro t ht
    rcases List.mem_append.mp ht with hm | hm
    · exact h3 t hm
    · rw [List.mem_singleton.mp hm]
      simp [getAllPaneIds]
  · rw [List.map_append]
    rw [List.nodup_append]
    refine ⟨h4, by simp, ?_⟩
    intro a ha hb
    simp only [List.map_cons, List.map_nil, List.mem_singleton] at hb
    obtain ⟨u, hu, hua⟩ := List.mem_map.mp ha
    have := h5 u hu
    omega
  · intro t ht
    show t.id ≤ c.tab + 1
    rcases List.mem_append.mp ht with hm | hm
    · have := h5 t hm
      omega
    · rw [List.mem_singleton.mp hm]
  · rw [hpanes]
    rw [List.nodup_append]
    refine ⟨h6, by simp, ?_⟩
    intro a ha hb
    rw [List.mem_singleton] at hb
    have := h7 a ha
    omega
  · intro pid hpid
    show pid ≤ c.pane + 1
    rw [hpanes] at hpid
    rcases List.mem_append.mp hpid with hm | hm
    · have := h7 pid hm
      omega
    · rw [List.mem_singleton.mp hm]
  · intro t ht
    rcases List.mem_append.mp ht with hm | hm
    · exact h8 t hm
    · rw [List.mem_singleton.mp hm]
      show (getAllPaneIds (.pane (c.pane + 1) none)).length = 1 + g (c.tab + 1)
      rw [h9 (c.tab + 1) (by omega)]
      simp [getAllPaneIds]
  · intro tid htid
    apply h9
    show c.tab < tid
    have : c.tab + 1 < tid := htid
    omega

/-- The invariant holds at the initial single-pane layout with zero ghost
counts. -/
theorem inv_init : Inv (initLayout ⟨0, 0⟩).1 (initLayout ⟨0, 0⟩).2 (fun _ => 0) := by
  have heq : initLayout ⟨0, 0⟩ =
      ({ tabs := [⟨1, .pane 1 none, 1⟩], activeTabId := 1 }, ⟨1, 1⟩) := rfl
  rw [heq]
  dsimp only
  refine ⟨by simp, ⟨⟨1, .pane 1 none, 1⟩, by simp, rfl⟩, ?_, by simp, ?_, ?_, ?_, ?_, ?_⟩
  · intro t ht
    rw [List.mem_singleton.mp ht]
    simp [getAllPaneIds]
  · intro t ht
    rw [List.mem_singleton.mp ht]
  · simp [panesOf, getAllPaneIds]
  · intro pid hpid
    have hp1 : pid = 1 := by
      simpa [panesOf, getAllPaneIds] using hpid
    rw [hp1]
  · intro t ht
    rw [List.mem_singleton.mp ht]
    simp [getAllPaneIds]
  · intro tid htid
    rfl

theorem stepG_eq (s : LayoutState) (c : Counters) (g : Nat → Nat) (op : LOp) :
    stepG (s, c, g) op = ((applyOp (s, c) op).1, (applyOp (s, c) op).2, ghostStep s g op) := by
  unfold stepG
  dsimp only

/-- One instrumented step preserves the invariant. -/
theorem inv_step (s : LayoutState) (c : Counters) (g : Nat → Nat) (op : LOp)
    (h : Inv s c g) :
    Inv (stepG (s, c, g) op).1 (stepG (s, c, g) op).2.1 (stepG (s, c, g) op).2.2 := by
  rw [stepG_eq]
  dsimp only
  cases op with
  | split d => exact inv_splitFocused d h
  | closeFocusedPane => exact inv_closeFocused h
  | focus d => exact inv_focusNext d h
  | newTab => exact inv_addTab h
  | nextTab => exact inv_cycleTab 1 h
  | prevTab => exact inv_cycleTab (-1) h
  | closeTabId tid => exact inv_closeTab tid h
  | activateTab tid => exact inv_setActiveTab tid h
  | focusPane pid => exact inv_moveFocusToPane pid h

theorem foldl_inv (ops : List LOp) :
    ∀ x : LayoutState × Counters × (Nat → Nat),
      Inv x.1 x.2.1 x.2.2 →
      Inv (ops.foldl stepG x).1 (ops.foldl stepG x).2.1 (ops.foldl stepG x).2.2 := by
  induction ops with
  | nil =>
    intro x hx
    simpa using hx
  | cons op rest ih =>
    intro x hx
    rw [List.foldl_cons]
    apply ih
    obtain ⟨s, c, g⟩ := x
    exact inv_step s c g op hx

/-- The invariant holds after every instrumented run. -/
theorem runOps_inv (ops : List LOp) :
    Inv (runOps ops).1 (runOps ops).2.1 (runOps ops).2.2 := by
  unfold runOps
  exact foldl_inv ops _ inv_init

end Layout

section ClaimC6
open Layout

/-- C6, amended: for every sequence of split, close-pane, focus, and tab
operations starting from the initial single-pane layout, the layout state
satisfies the global invariant — the tab list is non-empty,
`activeTabId` resolves to an existing tab, every tab's `focusedPaneId`
resolves inside that tab's own tree, and every tree has at least one
pane, so `validateLayoutState` reports no violation — and the active
tab's pane count equals `1 +` the net number of splits that took effect
on it (effective splits minus effective pane closes, tracked per tab by
the instrumented run's ghost counter).  The claim's accounting over all
requested splits fails: `splitPane` silently drops a split whose target
sits in the second subtree beneath a split first child (see the
counterexample below), so only effective splits can be counted. -/
theorem c6_layout_invariant (ops : List LOp) :
    validateLayoutState (runOps ops).1 = [] ∧
    (getActiveTab (runOps ops).1).elim False
      (fun tab => (getAllPaneIds tab.root).length = 1 + (runOps ops).2.2 tab.id) := by
  have h := runOps_inv ops
  refine ⟨validate_of_inv h, ?_⟩
  obtain ⟨-, ⟨tab, htab, hid⟩, -, hnd, -, -, -, h8, -⟩ := h
  rw [getActiveTab_eq hnd htab hid]
  show (getAllPaneIds tab.root).length = 1 + (runOps ops).2.2 tab.id
  exact h8 tab htab

/-- Counterexample to C6's pane-count accounting as literally stated.
After `split; focusPane 1; split` (two splits, no closes) the layout is
valid: the checker reports nothing, the active tab's focused pane is 2
and its pre-order pane list is `[1, 3, 2]`.  A third split, applied to
this valid state, is silently dropped — the run with the extra split ends
in exactly the same state, with 3 panes instead of the claimed
`1 + 3 = 4`: the reference-inequality test in `splitPane` commits to the
first subtree because the first child `Split(pane 1, pane 3)` is itself a
split, so the focused pane 2 in the second subtree is never reached, no
pane is added and no pane id is consumed. -/
theorem c6_split_noop_counterexample :
    validateLayoutState (runOps [.split .horizontal, .focusPane 1, .split .horizontal]).1 = [] ∧
    (getActiveTab (runOps [.split .horizontal, .focusPane 1, .split .horizontal]).1).map
      (fun tab => (tab.focusedPaneId, getAllPaneIds tab.root)) = some (2, [1, 3, 2]) ∧
    (runOps [.split .horizontal, .focusPane 1, .split .horizontal,
      .split .horizontal]).1 =
      (runOps [.split .horizontal, .focusPane 1, .split .horizontal]).1 ∧
    (getActiveTab (runOps [.split .horizontal, .focusPane 1, .split .horizontal,
      .split .horizontal]).1).map
      (fun tab => (getAllPaneIds tab.root).length) = some 3 :=
  ⟨rfl, rfl, rfl, rfl⟩

end ClaimC6
end Prise
